import Mathlib

/-!
# FormFlare: a shallow embedding of the submission store and rate limiter

This file embeds the core of the FormFlare worker — `src/ratelimit.ts`
(`checkRateLimit`) and `src/storage.ts` (`storeSubmission`, `getSubmissions`,
`getSubmission`) — as executable Lean definitions, and proves the spec's
claims about them.

Modelling conventions:
* Cloudflare KV namespaces and D1 tables are modelled as association lists
  from `String` keys to values.  `kv.get`/`SELECT ... WHERE key = ?` is the
  first-binding lookup `lookupA`; `kv.put` is the replace-or-append `putA`.
* JavaScript numbers used by the code (`Date.now()`, counts, epoch-ms
  instants) are modelled as `Int`; the values involved stay far below 2^53,
  where JS number arithmetic is exact integer arithmetic.
* `JSON.stringify`/`JSON.parse` round-trips on the record types involved are
  modelled as the identity: a stored value is read back structurally equal.
* Backend I/O faults (a KV `get`/`put` or a D1 statement throwing) are
  modelled by boolean fault flags on the backend state; a thrown exception is
  the `err` constructor of the outcome type.
-/

namespace FormFlare

/-- First-binding lookup in an association list (models `kv.get(key)` and
`SELECT ... WHERE key = ?` returning the row for `key`). -/
def lookupA {α : Type} (m : List (String × α)) (k : String) : Option α :=
  match m with
  | [] => none
  | (k', v) :: rest => if k' = k then some v else lookupA rest k

/-- Replace-or-append write to an association list (models `kv.put(key, v)`
and a keyed row overwrite). -/
def putA {α : Type} (m : List (String × α)) (k : String) (v : α) :
    List (String × α) :=
  match m with
  | [] => [(k, v)]
  | (k', v') :: rest => if k' = k then (k, v) :: rest else (k', v') :: putA rest k v

/-- JavaScript `Math.ceil(a / b)` for integer `a` and positive integer `b`. -/
def ceilDiv (a b : Int) : Int := -((-a).fdiv b)

/-! ## Rate limiter (`src/ratelimit.ts`) -/

/-- The JSON record `{count, resetAt}` stored under `ratelimit:{identifier}`
(KV) resp. the `count`/`reset_at` columns of a `rate_limits` row (D1). -/
structure RateWindow where
  count : Int
  resetAt : Int
deriving DecidableEq, Repr

/-- The result object of `checkRateLimit`: `{allowed, retryAfter?}`. -/
structure RLResult where
  allowed : Bool
  retryAfter : Option Int
deriving DecidableEq, Repr

/-- A KV namespace as seen by the rate limiter: the bindings of the
`ratelimit:` keyspace, plus fault flags saying whether the next `get`/`put`
throws. -/
structure RateKV where
  data : List (String × RateWindow)
  failGet : Bool
  failPut : Bool
deriving DecidableEq, Repr

/-- The D1 `rate_limits` table (`key TEXT PRIMARY KEY, count, reset_at`),
plus fault flags for the four statements `checkRateLimit` issues. -/
structure RateDB where
  rows : List (String × RateWindow)
  failSelect : Bool
  failDelete : Bool
  failInsert : Bool
  failUpdate : Bool
deriving DecidableEq, Repr

/-- Outcome of one `checkRateLimit` call: a returned result or a thrown
error, together with the backend states after the call. -/
inductive RLOutcome where
  | ok (res : RLResult) (kv : Option RateKV) (db : Option RateDB)
  | err (msg : String) (kv : Option RateKV) (db : Option RateDB)
deriving DecidableEq, Repr

def RLOutcome.result? : RLOutcome → Option RLResult
  | .ok r _ _ => some r
  | .err _ _ _ => none

def RLOutcome.nextKV : RLOutcome → Option RateKV
  | .ok _ k _ => k
  | .err _ k _ => k

def RLOutcome.nextDB : RLOutcome → Option RateDB
  | .ok _ _ d => d
  | .err _ _ d => d

/-- The body of the `try` block of the D1 branch of `checkRateLimit`
(`src/ratelimit.ts` lines 62–94): select the row, then create / reject /
increment.  Window replacement is delete-then-insert; increment is
`UPDATE rate_limits SET count = count + 1 WHERE key = ?`. -/
def rateLimitD1Body (d : RateDB) (key : String) (maxRequests windowMs now : Int) :
    RLOutcome :=
  if d.failSelect then .err "d1 select" none (some d)
  else
    match lookupA d.rows key with
    | none =>
        if d.failInsert then .err "d1 insert" none (some d)
        else .ok ⟨true, none⟩ none
          (some { d with rows := d.rows ++ [(key, ⟨1, now + windowMs⟩)] })
    | some existing =>
        if now ≥ existing.resetAt then
          if d.failDelete then .err "d1 delete" none (some d)
          else
            let d1 := { d with rows := d.rows.filter (fun r => decide (r.1 ≠ key)) }
            if d1.failInsert then .err "d1 insert" none (some d1)
            else .ok ⟨true, none⟩ none
              (some { d1 with rows := d1.rows ++ [(key, ⟨1, now + windowMs⟩)] })
        else if existing.count ≥ maxRequests then
          .ok ⟨false, some (ceilDiv (existing.resetAt - now) 1000)⟩ none (some d)
        else
          if d.failUpdate then .err "d1 update" none (some d)
          else
            let bumped :=
              d.rows.map (fun r => if r.1 = key then (r.1, ⟨r.2.count + 1, r.2.resetAt⟩) else r)
            .ok ⟨true, none⟩ none (some { d with rows := bumped })

/-- `checkRateLimit(kv, db, identifier, maxRequests, windowSeconds)` from
`src/ratelimit.ts`, at current time `now`.  The KV branch (preferred when a
KV namespace is bound) has no `try`/`catch`; the D1 branch wraps its body in
`try { ... } catch { return { allowed: true } }`; with neither backend the
call returns `{ allowed: true }`. -/
def checkRateLimit (kv : Option RateKV) (db : Option RateDB) (identifier : String)
    (maxRequests windowSeconds now : Int) : RLOutcome :=
  let key := "ratelimit:" ++ identifier
  let windowMs := windowSeconds * 1000
  match kv with
  | some k =>
      if k.failGet then .err "kv get" (some k) db
      else
        match lookupA k.data key with
        | none =>
            if k.failPut then .err "kv put" (some k) db
            else .ok ⟨true, none⟩
              (some { k with data := putA k.data key ⟨1, now + windowMs⟩ }) db
        | some existing =>
            if now ≥ existing.resetAt then
              if k.failPut then .err "kv put" (some k) db
              else .ok ⟨true, none⟩
                (some { k with data := putA k.data key ⟨1, now + windowMs⟩ }) db
            else if existing.count ≥ maxRequests then
              .ok ⟨false, some (ceilDiv (existing.resetAt - now) 1000)⟩ (some k) db
            else
              if k.failPut then .err "kv put" (some k) db
              else .ok ⟨true, none⟩
                (some { k with data := putA k.data key ⟨existing.count + 1, existing.resetAt⟩ }) db
  | none =>
      match db with
      | some d =>
          match rateLimitD1Body d key maxRequests windowMs now with
          | .err _ _ db2 => .ok ⟨true, none⟩ none db2
          | o => o
      | none => .ok ⟨true, none⟩ kv db

/-- The list of outcomes of `n` successive `checkRateLimit` calls for the
same identifier and parameters at a fixed current time, threading the
backend states. -/
def rlTrace (identifier : String) (maxRequests windowSeconds now : Int) :
    Nat → Option RateKV → Option RateDB → List RLOutcome
  | 0, _, _ => []
  | n + 1, kv, db =>
      let o := checkRateLimit kv db identifier maxRequests windowSeconds now
      o :: rlTrace identifier maxRequests windowSeconds now n o.nextKV o.nextDB

/-- Backend states after `n` successive `checkRateLimit` calls. -/
def rlStateAfter (identifier : String) (maxRequests windowSeconds now : Int) :
    Nat → Option RateKV → Option RateDB → Option RateKV × Option RateDB
  | 0, kv, db => (kv, db)
  | n + 1, kv, db =>
      let o := checkRateLimit kv db identifier maxRequests windowSeconds now
      rlStateAfter identifier maxRequests windowSeconds now n o.nextKV o.nextDB

/-! ## Submission storage (`src/storage.ts`) -/

/-- JavaScript `s.startsWith(t)`. -/
def jsStartsWith (s t : String) : Bool := t.data.isPrefixOf s.data

/-- JavaScript `s.endsWith(t)`. -/
def jsEndsWith (s t : String) : Bool := t.data.isSuffixOf s.data

/-- Strict lexicographic order on character lists (byte order on the ASCII
strings the store uses), used to model backend key ordering. -/
def lexLt : List Char → List Char → Bool
  | [], [] => false
  | [], _ :: _ => true
  | _ :: _, [] => false
  | a :: as, b :: bs => if a < b then true else if b < a then false else lexLt as bs

/-- The `metadata` object of a submission. -/
structure Metadata where
  ip : String
  userAgent : String
  timestamp : String
  turnstileScore : Option Int
deriving DecidableEq, Repr

/-- The caller-supplied `data` record, opaque to the store. -/
abbrev SubmissionData := List (String × String)

/-- `FormSubmission` from `src/storage.ts`. -/
structure FormSubmission where
  formId : String
  data : SubmissionData
  metadata : Metadata
deriving DecidableEq, Repr

/-- `StoredSubmission`: a `FormSubmission` plus the assigned `id`. -/
structure StoredSubmission extends FormSubmission where
  id : String
deriving DecidableEq, Repr

/-- A value stored in the KV namespace: a submission record (under
`submission:{formId}:{id}`) or a form index (under `index:{formId}`). -/
inductive KVVal where
  | sub (s : StoredSubmission)
  | idx (ids : List String)
deriving DecidableEq, Repr

/-- The KV namespace used by the submission store. -/
abbrev SubKV := List (String × KVVal)

/-- A row of the D1 `submissions` table
(`id TEXT PRIMARY KEY, form_id, data, metadata, created_at`).  The `data` and
`metadata` columns hold JSON; the JSON round-trip is modelled structurally. -/
structure SubRow where
  id : String
  form_id : String
  data : SubmissionData
  metadata : Metadata
  created_at : String
deriving DecidableEq, Repr

/-- The D1 `submissions` table as an insertion-ordered list of rows. -/
abbrev SubDB := List SubRow

/-- The row-to-object mapping used by the D1 read paths of `getSubmissions`
and `getSubmission` (`created_at` is dropped; `data`/`metadata` are
JSON-parsed). -/
def rowToStored (r : SubRow) : StoredSubmission :=
  ⟨⟨r.form_id, r.data, r.metadata⟩, r.id⟩

/-- `storeSubmission(submission, kv, db)` from `src/storage.ts`, with the
`nanoid()` output passed explicitly as `submissionId`.  D1 is preferred when
bound; otherwise KV writes the record then reads, prepends to, trims to 1000
and rewrites the per-form index; with neither backend it throws
`No storage backend configured`. -/
def storeSubmission (submission : FormSubmission) (kv : Option SubKV)
    (db : Option SubDB) (submissionId : String) :
    Except String (String × Option SubKV × Option SubDB) :=
  let stored : StoredSubmission := { submission with id := submissionId }
  match db with
  | some rows =>
      let row : SubRow := ⟨submissionId, submission.formId, submission.data,
        submission.metadata, submission.metadata.timestamp⟩
      .ok (submissionId, kv, some (rows ++ [row]))
  | none =>
      match kv with
      | some store =>
          let key := "submission:" ++ submission.formId ++ ":" ++ submissionId
          let store1 := putA store key (.sub stored)
          let indexKey := "index:" ++ submission.formId
          let existingIndex :=
            match lookupA store1 indexKey with
            | some (.idx ids) => ids
            | _ => []
          let trimmedIndex := (submissionId :: existingIndex).take 1000
          .ok (submissionId, some (putA store1 indexKey (.idx trimmedIndex)), none)
      | none => .error "No storage backend configured"

/-- Insert a row into a list sorted by `created_at` descending.  Models the
`ORDER BY created_at DESC` of the D1 `getSubmissions` query; the relative
order of rows with equal `created_at` is unspecified by the backend, and no
theorem below depends on it. -/
def insertDesc (r : SubRow) : List SubRow → List SubRow
  | [] => [r]
  | x :: xs => if lexLt x.created_at.data r.created_at.data then r :: x :: xs
               else x :: insertDesc r xs

/-- Sort rows by `created_at` descending (see `insertDesc`). -/
def sortByCreatedAtDesc : List SubRow → List SubRow
  | [] => []
  | r :: rs => insertDesc r (sortByCreatedAtDesc rs)

/-- `getSubmissions(kv, db, formId, limit, offset)` from `src/storage.ts`.
D1 preferred: filter by `form_id`, order by `created_at` descending, apply
`OFFSET`/`LIMIT`.  KV: read the form index, slice
`[offset, offset + limit)`, fetch each referenced record, skipping misses.
Neither backend: empty list. -/
def getSubmissions (kv : Option SubKV) (db : Option SubDB) (formId : String)
    (limit offset : Nat) : List StoredSubmission :=
  match db with
  | some rows =>
      let matching := rows.filter (fun r => decide (r.form_id = formId))
      let sorted := sortByCreatedAtDesc matching
      ((sorted.drop offset).take limit).map rowToStored
  | none =>
      match kv with
      | some store =>
          let index :=
            match lookupA store ("index:" ++ formId) with
            | some (.idx ids) => ids
            | _ => []
          let ids := (index.drop offset).take limit
          ids.filterMap (fun id =>
            match lookupA store ("submission:" ++ formId ++ ":" ++ id) with
            | some (.sub s) => some s
            | _ => none)
      | none => []

/-- Insert a string into a lexicographically sorted list. -/
def insortStr (k : String) : List String → List String
  | [] => [k]
  | x :: xs => if lexLt k.data x.data then k :: x :: xs else x :: insortStr k xs

/-- Sort strings lexicographically. -/
def sortStr : List String → List String
  | [] => []
  | x :: xs => insortStr x (sortStr xs)

/-- The key names returned by a single `kv.list(\x7b prefix \x7d)` call: the
first page — at most 1000 keys — of the namespace keys starting with `pre`,
in lexicographic order.  The API caps a page at 1000 keys, and the scan in
`getSubmission` reads only `list.keys` without ever requesting a further
page, so keys beyond the first 1000 are never seen by it. -/
def kvListKeys (store : SubKV) (pre : String) : List String :=
  (sortStr ((store.map Prod.fst).filter (fun k => jsStartsWith k pre))).take 1000

/-- The scan loop of the KV branch of `getSubmission`: walk the listed keys
and return, for the first key ending in `:{submissionId}`, the record stored
under it (`null` when the get misses or the value is not a record). -/
def scanFor (store : SubKV) (submissionId : String) :
    List String → Option StoredSubmission
  | [] => none
  | k :: ks =>
      if jsEndsWith k (":" ++ submissionId) then
        match lookupA store k with
        | some (.sub s) => some s
        | _ => none
      else scanFor store submissionId ks

/-- `getSubmission(kv, db, submissionId)` from `src/storage.ts`.  D1
preferred: primary-key point lookup.  KV: list all `submission:`-keyed
records and return the first whose key ends in `:{submissionId}`.
Neither backend: `null`. -/
def getSubmission (kv : Option SubKV) (db : Option SubDB)
    (submissionId : String) : Option StoredSubmission :=
  match db with
  | some rows =>
      match rows.find? (fun r => decide (r.id = submissionId)) with
      | some r => some (rowToStored r)
      | none => none
  | none =>
      match kv with
      | some store => scanFor store submissionId (kvListKeys store "submission:")
      | none => none

/-- Apply a sequence of log-backend `storeSubmission` operations (each given
as the submission together with its generated id). -/
def storeSeq (ops : List (FormSubmission × String)) (store : SubKV) : SubKV :=
  match ops with
  | [] => store
  | (s, id) :: rest =>
      match storeSubmission s (some store) none id with
      | .ok (_, some store', _) => storeSeq rest store'
      | _ => store

/-- The per-form index list currently stored under `index:{formId}` (empty
when absent). -/
def formIndex (store : SubKV) (formId : String) : List String :=
  match lookupA store ("index:" ++ formId) with
  | some (.idx ids) => ids
  | _ => []

/-- A string free of the `:` separator.  The ids produced by `nanoid()` (the
IdentifierGenerator) are over the URL-safe alphabet `A–Z a–z 0–9 _ -` and in
particular satisfy this. -/
def NoColon (s : String) : Prop := ':' ∉ s.data

instance noColonDecidable (s : String) : Decidable (NoColon s) :=
  inferInstanceAs (Decidable (':' ∉ s.data))

/-- Log-backend states reachable from the empty namespace by
`storeSubmission` operations whose assigned ids come from the
IdentifierGenerator (so they contain no `:`) and whose formIds satisfy `P`. -/
inductive ReachableKV (P : String → Prop) : SubKV → Prop
  | empty : ReachableKV P []
  | step (s : FormSubmission) (id : String) (store store' : SubKV) :
      ReachableKV P store → P s.formId → NoColon id →
      storeSubmission s (some store) none id = .ok (id, some store', none) →
      ReachableKV P store'


/-- First witness submission for the two-entry listing scenario. -/
def wSub1 : FormSubmission := ⟨"f1", [], ⟨"ip", "ua", "t1", none⟩⟩

/-- Second witness submission for the two-entry listing scenario. -/
def wSub2 : FormSubmission := ⟨"f1", [], ⟨"ip", "ua", "t2", none⟩⟩

/-- The KV namespace after storing `wSub1` under id `a` into the empty
namespace. -/
def wStore1 : SubKV :=
  putA (putA [] ("submission:" ++ "f1" ++ ":" ++ "a") (.sub ⟨wSub1, "a"⟩))
    ("index:" ++ "f1") (.idx ["a"])

/-- The KV namespace after additionally storing `wSub2` under id `b`. -/
def wStore2 : SubKV :=
  putA (putA wStore1 ("submission:" ++ "f1" ++ ":" ++ "b") (.sub ⟨wSub2, "b"⟩))
    ("index:" ++ "f1") (.idx ["b", "a"])

/-- The first submission of the table-order counterexample (earlier-stored,
later timestamp). -/
def cexSubA : FormSubmission :=
  ⟨"f1", [("name", "A")], ⟨"ip", "ua", "2025-01-02T00:00:00Z", none⟩⟩

/-- The second submission of the table-order counterexample (later-stored,
earlier timestamp). -/
def cexSubB : FormSubmission :=
  ⟨"f1", [("name", "B")], ⟨"ip", "ua", "2025-01-01T00:00:00Z", none⟩⟩

/-- The row written for `cexSubA`. -/
def cexRow1 : SubRow :=
  ⟨"id1", "f1", [("name", "A")], ⟨"ip", "ua", "2025-01-02T00:00:00Z", none⟩,
    "2025-01-02T00:00:00Z"⟩

/-- The row written for `cexSubB`. -/
def cexRow2 : SubRow :=
  ⟨"id2", "f1", [("name", "B")], ⟨"ip", "ua", "2025-01-01T00:00:00Z", none⟩,
    "2025-01-01T00:00:00Z"⟩

/-- The `submissions` table after storing `cexSubA` then `cexSubB`. -/
def cexRows : SubDB := [cexRow1, cexRow2]


/-- The KV namespace after storing the round-trip witness submission. -/
def wrtStore : SubKV :=
  putA (putA [] ("submission:" ++ "f" ++ ":" ++ "xyz")
      (.sub ⟨⟨"f", [("a", "1")], ⟨"ip", "ua", "t", none⟩⟩, "xyz"⟩))
    ("index:" ++ "f") (.idx ["xyz"])


/-- Well-formedness of one log-backend binding under a formId predicate `P`:
the binding is either a form index stored under `index:{formId}`, or a
submission record stored under `submission:{formId}:{id}` whose value
carries that same id, with `P formId` and the id free of `:`. -/
def KeyWF (P : String → Prop) (p : String × KVVal) : Prop :=
  (∃ f ids, p.1 = "index:" ++ f ∧ p.2 = KVVal.idx ids) ∨
  (∃ f t, p.1 = "submission:" ++ f ++ ":" ++ StoredSubmission.id t ∧
    p.2 = KVVal.sub t ∧ P f ∧ NoColon (StoredSubmission.id t))

/-- A reachable log-backend state whose single submission was stored under
the colon-containing formId `g:X` with id `Y` (key `submission:g:X:Y`). -/
def colonStore : SubKV :=
  putA (putA [] ("submission:" ++ "g:X" ++ ":" ++ "Y")
      (.sub ⟨⟨"g:X", [], ⟨"ip", "ua", "t", none⟩⟩, "Y"⟩))
    ("index:" ++ "g:X") (.idx ["Y"])

/-- A reachable log-backend state with a colon-free formId. -/
def plainStore : SubKV :=
  putA (putA [] ("submission:" ++ "f" ++ ":" ++ "abc")
      (.sub ⟨⟨"f", [], ⟨"ip", "ua", "t", none⟩⟩, "abc"⟩))
    ("index:" ++ "f") (.idx ["abc"])


/-- Fixed-width three-digit decimal rendering of `n < 1000`, the generated
ids of the page-overflow scenario. -/
def pad3 (n : Nat) : String :=
  ⟨[Nat.digitChar (n / 100), Nat.digitChar (n / 10 % 10), Nat.digitChar (n % 10)]⟩

/-- The submission repeatedly posted to form `a` in the page-overflow
scenario. -/
def aSub : FormSubmission := ⟨"a", [], ⟨"ip", "ua", "t", none⟩⟩

/-- The record key of the `n`-th form-`a` submission. -/
def aKey (n : Nat) : String := "submission:" ++ "a" ++ ":" ++ pad3 n

/-- The 1000 store operations filling form `a` with ids `000` … `999`. -/
def bigOps : List (FormSubmission × String) :=
  (List.range 1000).map (fun n => (aSub, pad3 n))

/-- The namespace layout after the first `t + 1` of the 1000 form-`a`
stores (`t + 1 ≤ 1000`): the first record, the per-form index (rewritten in
place by every later store), then the later records in insertion order. -/
def aState (t : Nat) : SubKV :=
  (aKey 0, .sub ⟨aSub, pad3 0⟩) ::
    ("index:" ++ "a", .idx (((List.range (t + 1)).reverse).map pad3)) ::
    (List.range t).map (fun n => (aKey (n + 1), .sub ⟨aSub, pad3 (n + 1)⟩))

/-- The 1001st submission of the page-overflow scenario, stored for form `b`
with id `x`; its record key sorts after every form-`a` record key. -/
def bSub : FormSubmission := ⟨"b", [], ⟨"ip", "ua", "t", none⟩⟩

/-- The record key of the form-`b` submission. -/
def bKey : String := "submission:" ++ "b" ++ ":" ++ "x"

/-- The namespace after the 1001st store: 1001 record keys, of which the
single 1000-key list page retains only the 1000 form-`a` keys. -/
def overflowStore : SubKV :=
  aState 999 ++ [(bKey, .sub ⟨bSub, "x"⟩), ("index:" ++ "b", .idx ["x"])]

/-! ## Association-list lemmas -/

theorem lookupA_putA_self {α : Type} (m : List (String × α)) (k : String) (v : α) :
    lookupA (putA m k v) k = some v := by
  induction m with
  | nil => simp [putA, lookupA]
  | cons p rest ih =>
      obtain ⟨a, b⟩ := p
      by_cases h : a = k
      · simp [putA, h, lookupA]
      · simp [putA, h, lookupA, ih]

theorem lookupA_putA_ne {α : Type} (m : List (String × α)) {k k' : String} (v : α)
    (h : k ≠ k') : lookupA (putA m k v) k' = lookupA m k' := by
  induction m with
  | nil => simp [putA, lookupA, h]
  | cons p rest ih =>
      obtain ⟨a, b⟩ := p
      by_cases ha : a = k
      · subst ha
        simp [putA, lookupA, h]
      · simp [putA, ha, lookupA, ih]

theorem putA_putA {α : Type} (m : List (String × α)) (k : String) (v v' : α) :
    putA (putA m k v) k v' = putA m k v' := by
  induction m with
  | nil => simp [putA]
  | cons p rest ih =>
      obtain ⟨a, b⟩ := p
      by_cases h : a = k
      · simp [putA, h]
      · simp [putA, h, ih]

theorem putA_self {α : Type} (m : List (String × α)) (k : String) (v : α)
    (h : lookupA m k = some v) : putA m k v = m := by
  induction m with
  | nil => simp [lookupA] at h
  | cons p rest ih =>
      obtain ⟨a, b⟩ := p
      by_cases ha : a = k
      · subst ha
        simp [lookupA] at h
        simp [putA, h]
      · simp [lookupA, ha] at h
        simp [putA, ha, ih h]

theorem mem_putA {α : Type} {m : List (String × α)} {k : String} {v : α}
    {p : String × α} (h : p ∈ putA m k v) : p = (k, v) ∨ p ∈ m := by
  induction m with
  | nil => simpa [putA] using h
  | cons q rest ih =>
      obtain ⟨a, b⟩ := q
      by_cases ha : a = k
      · simp [putA, ha] at h
        rcases h with h | h
        · exact Or.inl (by simp [h])
        · exact Or.inr (by simp [h])
      · simp [putA, ha] at h
        rcases h with h | h
        · exact Or.inr (by simp [h])
        · rcases ih h with h' | h'
          · exact Or.inl h'
          · exact Or.inr (by simp [h'])

theorem putA_mem_self {α : Type} (m : List (String × α)) (k : String) (v : α) :
    (k, v) ∈ putA m k v := by
  induction m with
  | nil => simp [putA]
  | cons q rest ih =>
      obtain ⟨a, b⟩ := q
      by_cases ha : a = k
      · simp [putA, ha]
      · simp [putA, ha]
        exact Or.inr ih

theorem mem_putA_of_ne {α : Type} {m : List (String × α)} {k : String} {v : α}
    {p : String × α} (hm : p ∈ m) (hk : p.1 ≠ k) : p ∈ putA m k v := by
  induction m with
  | nil => simp at hm
  | cons q rest ih =>
      obtain ⟨a, b⟩ := q
      rcases List.mem_cons.mp hm with h | h
      · subst h
        by_cases ha : a = k
        · exact absurd ha hk
        · simp [putA, ha]
      · by_cases ha : a = k
        · simp [putA, ha]
          exact Or.inr h
        · simp [putA, ha]
          exact Or.inr (ih h)

theorem lookupA_mem {α : Type} {m : List (String × α)} {k : String} {v : α}
    (h : lookupA m k = some v) : (k, v) ∈ m := by
  induction m with
  | nil => simp [lookupA] at h
  | cons q rest ih =>
      obtain ⟨a, b⟩ := q
      by_cases ha : a = k
      · subst ha
        simp [lookupA] at h
        simp [h]
      · simp [lookupA, ha] at h
        simp [ih h]

theorem lookupA_eq_none_of_forall {α : Type} {m : List (String × α)} {k : String}
    (h : ∀ p ∈ m, p.1 ≠ k) : lookupA m k = none := by
  induction m with
  | nil => simp [lookupA]
  | cons q rest ih =>
      obtain ⟨a, b⟩ := q
      have ha : a ≠ k := h (a, b) (by simp)
      simp [lookupA, ha]
      exact ih (fun p hp => h p (by simp [hp]))

theorem forall_of_lookupA_eq_none {α : Type} {m : List (String × α)} {k : String}
    (h : lookupA m k = none) : ∀ p ∈ m, p.1 ≠ k := by
  induction m with
  | nil => simp
  | cons q rest ih =>
      obtain ⟨a, b⟩ := q
      by_cases ha : a = k
      · simp [lookupA, ha] at h
      · simp [lookupA, ha] at h
        intro p hp
        rcases List.mem_cons.mp hp with h' | h'
        · subst h'; exact ha
        · exact ih h p h'

theorem lookupA_append_left {α : Type} {m₁ : List (String × α)}
    (m₂ : List (String × α)) {k : String} {v : α} (h : lookupA m₁ k = some v) :
    lookupA (m₁ ++ m₂) k = some v := by
  induction m₁ with
  | nil => simp [lookupA] at h
  | cons q rest ih =>
      obtain ⟨a, b⟩ := q
      by_cases ha : a = k
      · subst ha
        simp [lookupA] at h
        simp [lookupA, h]
      · simp [lookupA, ha] at h ⊢
        exact ih h

theorem lookupA_append_right {α : Type} {m₁ : List (String × α)}
    (m₂ : List (String × α)) {k : String} (h : lookupA m₁ k = none) :
    lookupA (m₁ ++ m₂) k = lookupA m₂ k := by
  induction m₁ with
  | nil => simp
  | cons q rest ih =>
      obtain ⟨a, b⟩ := q
      by_cases ha : a = k
      · simp [lookupA, ha] at h
      · simp [lookupA, ha] at h ⊢
        exact ih h

theorem lookupA_filter_ne {α : Type} (m : List (String × α)) (k : String) :
    lookupA (m.filter (fun p => decide (p.1 ≠ k))) k = none := by
  apply lookupA_eq_none_of_forall
  intro p hp
  simpa using (List.mem_filter.mp hp).2

theorem filter_ne_eq_self {α : Type} {m : List (String × α)} {k : String}
    (h : ∀ p ∈ m, p.1 ≠ k) : m.filter (fun p => decide (p.1 ≠ k)) = m :=
  List.filter_eq_self.mpr (fun p hp => by simpa using h p hp)

theorem map_bump_eq_self {α : Type} {m : List (String × α)} {k : String}
    (f : String × α → String × α) (h : ∀ p ∈ m, p.1 ≠ k) :
    m.map (fun p => if p.1 = k then f p else p) = m := by
  induction m with
  | nil => simp
  | cons q rest ih =>
      have hq : q.1 ≠ k := h q (by simp)
      simp [hq]
      exact ih (fun p hp => h p (by simp [hp]))

/-! ## Rate-limiter theorems -/

/-- C3: for every identifier whose stored window has `resetAt ≤ now`, the
next `checkRateLimit` call persists a fresh window with `count = 1` and
`resetAt = now + windowSeconds * 1000` and returns `allowed: true`, on both
the KV and the D1 backend; the prior window's count `c` (resp. `c'`) does
not occur in the result or in the new stored state, so it has no influence
on either. -/
theorem expired_window_replaced (k : RateKV) (d : RateDB) (identifier : String)
    (maxRequests windowSeconds now c r c' r' : Int)
    (hkget : k.failGet = false) (hkput : k.failPut = false)
    (hdsel : d.failSelect = false) (hddel : d.failDelete = false)
    (hdins : d.failInsert = false)
    (hk : lookupA k.data ("ratelimit:" ++ identifier) = some ⟨c, r⟩)
    (hd : lookupA d.rows ("ratelimit:" ++ identifier) = some ⟨c', r'⟩)
    (hnowk : r ≤ now) (hnowd : r' ≤ now) :
    (∀ db, checkRateLimit (some k) db identifier maxRequests windowSeconds now =
        .ok ⟨true, none⟩
          (some { k with data := (putA k.data ("ratelimit:" ++ identifier)
            ⟨1, now + windowSeconds * 1000⟩) }) db) ∧
    checkRateLimit none (some d) identifier maxRequests windowSeconds now =
      .ok ⟨true, none⟩ none
        (some { d with rows :=
          d.rows.filter (fun p => decide (p.1 ≠ "ratelimit:" ++ identifier)) ++
          [("ratelimit:" ++ identifier, ⟨1, now + windowSeconds * 1000⟩)] }) := by
  constructor
  · intro db
    simp [checkRateLimit, hkget, hkput, hk, ge_iff_le, hnowk]
  · simp [checkRateLimit, rateLimitD1Body, hdsel, hddel, hdins, hd, ge_iff_le, hnowd]

/-- Witness for C3 at a concrete expired window. -/
theorem expired_window_replaced_witness :
    checkRateLimit (some ⟨[("ratelimit:ip", ⟨7, 100⟩)], false, false⟩) none
        "ip" 10 60 100 =
      .ok ⟨true, none⟩
        (some ⟨putA [("ratelimit:ip", ⟨7, 100⟩)] ("ratelimit:" ++ "ip")
            ⟨1, (100 : Int) + 60 * 1000⟩, false, false⟩) none ∧
    checkRateLimit none (some ⟨[("ratelimit:ip", ⟨7, 100⟩)], false, false, false, false⟩)
        "ip" 10 60 100 =
      .ok ⟨true, none⟩ none
        (some ⟨[("ratelimit:ip", RateWindow.mk 7 100)].filter
              (fun p => decide (p.1 ≠ "ratelimit:" ++ "ip")) ++
            [("ratelimit:" ++ "ip", ⟨1, (100 : Int) + 60 * 1000⟩)],
          false, false, false, false⟩) := by
  have h := expired_window_replaced ⟨[("ratelimit:ip", ⟨7, 100⟩)], false, false⟩
    ⟨[("ratelimit:ip", ⟨7, 100⟩)], false, false, false, false⟩ "ip" 10 60 100 7 100 7 100
    rfl rfl rfl rfl rfl (by decide) (by decide) (by decide) (by decide)
  exact ⟨h.1 none, h.2⟩

/-- C6: for every identifier whose stored window is current (`now < resetAt`)
and has `count ≥ maxRequests`, `checkRateLimit` returns `allowed: false` with
`retryAfterSeconds = ceil((resetAt - now) / 1000)` and performs no write: the
backend states after the call are exactly the states before it, on both
backends. -/
theorem limit_reached_no_write (k : RateKV) (d : RateDB) (identifier : String)
    (maxRequests windowSeconds now c r c' r' : Int)
    (hkget : k.failGet = false) (hdsel : d.failSelect = false)
    (hk : lookupA k.data ("ratelimit:" ++ identifier) = some ⟨c, r⟩)
    (hd : lookupA d.rows ("ratelimit:" ++ identifier) = some ⟨c', r'⟩)
    (hnk : now < r) (hnd : now < r')
    (hck : maxRequests ≤ c) (hcd : maxRequests ≤ c') :
    (∀ db, checkRateLimit (some k) db identifier maxRequests windowSeconds now =
        .ok ⟨false, some (ceilDiv (r - now) 1000)⟩ (some k) db) ∧
    checkRateLimit none (some d) identifier maxRequests windowSeconds now =
      .ok ⟨false, some (ceilDiv (r' - now) 1000)⟩ none (some d) := by
  have hnk' : ¬ r ≤ now := not_le.mpr hnk
  have hnd' : ¬ r' ≤ now := not_le.mpr hnd
  constructor
  · intro db
    simp [checkRateLimit, hkget, hk, ge_iff_le, hnk', hck]
  · simp [checkRateLimit, rateLimitD1Body, hdsel, hd, ge_iff_le, hnd', hcd]

/-- Witness for C6 at a concrete saturated window (`count = 10 = maxRequests`,
`retryAfter = ceil(1500/1000) = 2`). -/
theorem limit_reached_no_write_witness :
    checkRateLimit (some ⟨[("ratelimit:ip", ⟨10, 2000⟩)], false, false⟩) none
        "ip" 10 60 500 =
      .ok ⟨false, some 2⟩ (some ⟨[("ratelimit:ip", ⟨10, 2000⟩)], false, false⟩) none ∧
    checkRateLimit none (some ⟨[("ratelimit:ip", ⟨10, 2000⟩)], false, false, false, false⟩)
        "ip" 10 60 500 =
      .ok ⟨false, some 2⟩ none
        (some ⟨[("ratelimit:ip", ⟨10, 2000⟩)], false, false, false, false⟩) := by
  have h := limit_reached_no_write ⟨[("ratelimit:ip", ⟨10, 2000⟩)], false, false⟩
    ⟨[("ratelimit:ip", ⟨10, 2000⟩)], false, false, false, false⟩ "ip" 10 60 500 10 2000 10 2000
    rfl rfl (by decide) (by decide) (by decide) (by decide) (by decide) (by decide)
  have hc : ceilDiv ((2000 : Int) - 500) 1000 = 2 := by decide
  exact ⟨by simpa [hc] using h.1 none, by simpa [hc] using h.2⟩

/-- C10: for every `maxRequests`, including zero and negative values, and
every identifier whose window is absent or expired, `checkRateLimit` returns
`allowed: true` and persists `count = 1`: the fresh-window branch runs before
the `count ≥ maxRequests` comparison on both backends. -/
theorem fresh_window_ignores_limit (k : RateKV) (d : RateDB) (identifier : String)
    (maxRequests windowSeconds now : Int)
    (hkget : k.failGet = false) (hkput : k.failPut = false)
    (hdsel : d.failSelect = false) (hddel : d.failDelete = false)
    (hdins : d.failInsert = false)
    (hk : lookupA k.data ("ratelimit:" ++ identifier) = none ∨
      ∃ w : RateWindow, lookupA k.data ("ratelimit:" ++ identifier) = some w ∧
        w.resetAt ≤ now)
    (hd : lookupA d.rows ("ratelimit:" ++ identifier) = none ∨
      ∃ w : RateWindow, lookupA d.rows ("ratelimit:" ++ identifier) = some w ∧
        w.resetAt ≤ now) :
    (∀ db, checkRateLimit (some k) db identifier maxRequests windowSeconds now =
        .ok ⟨true, none⟩
          (some { k with data := (putA k.data ("ratelimit:" ++ identifier)
            ⟨1, now + windowSeconds * 1000⟩) }) db) ∧
    (∃ rows', checkRateLimit none (some d) identifier maxRequests windowSeconds now =
        .ok ⟨true, none⟩ none (some { d with rows := rows' }) ∧
      lookupA rows' ("ratelimit:" ++ identifier) =
        some ⟨1, now + windowSeconds * 1000⟩) := by
  constructor
  · intro db
    rcases hk with hk | ⟨w, hw, hwle⟩
    · simp [checkRateLimit, hkget, hkput, hk]
    · simp [checkRateLimit, hkget, hkput, hw, ge_iff_le, hwle]
  · rcases hd with hd | ⟨w, hw, hwle⟩
    · refine ⟨d.rows ++ [("ratelimit:" ++ identifier, ⟨1, now + windowSeconds * 1000⟩)],
        ?_, ?_⟩
      · simp [checkRateLimit, rateLimitD1Body, hdsel, hdins, hd]
      · rw [lookupA_append_right _ hd]
        simp [lookupA]
    · refine ⟨d.rows.filter (fun p => decide (p.1 ≠ "ratelimit:" ++ identifier)) ++
        [("ratelimit:" ++ identifier, ⟨1, now + windowSeconds * 1000⟩)], ?_, ?_⟩
      · simp [checkRateLimit, rateLimitD1Body, hdsel, hddel, hdins, hw, ge_iff_le, hwle]
      · rw [lookupA_append_right _ (lookupA_filter_ne _ _)]
        simp [lookupA]

/-- Witness for C10 with `maxRequests = 0` and empty backends: the first
request of the window is allowed even though the configured limit is zero. -/
theorem fresh_window_ignores_limit_witness :
    checkRateLimit (some ⟨[], false, false⟩) none "ip" 0 60 1000 =
      .ok ⟨true, none⟩
        (some ⟨putA [] ("ratelimit:" ++ "ip") ⟨1, (1000 : Int) + 60 * 1000⟩,
          false, false⟩) none ∧
    (∃ rows', checkRateLimit none (some ⟨[], false, false, false, false⟩) "ip" 0 60 1000 =
        .ok ⟨true, none⟩ none (some ⟨rows', false, false, false, false⟩) ∧
      lookupA rows' ("ratelimit:" ++ "ip") = some ⟨1, (1000 : Int) + 60 * 1000⟩) := by
  have h := fresh_window_ignores_limit ⟨[], false, false⟩ ⟨[], false, false, false, false⟩
    "ip" 0 60 1000 rfl rfl rfl rfl rfl (Or.inl (by decide)) (Or.inl (by decide))
  exact ⟨h.1 none, h.2⟩

/-- C4 counterexample: on the log (KV) backend a backend error is NOT
converted to `allowed: true` — a throwing `kv.get` propagates out of
`checkRateLimit` as a thrown error, so the call surfaces a failure to its
caller. -/
theorem rateLimit_kv_error_propagates_cex :
    checkRateLimit (some ⟨[], true, false⟩) none "ip1" 10 60 0 =
      .err "kv get" (some ⟨[], true, false⟩) none ∧
    (checkRateLimit (some ⟨[], true, false⟩) none "ip1" 10 60 0).result? = none := by
  exact ⟨rfl, rfl⟩

/-- C4 (amended): `checkRateLimit` returns `allowed: true` when neither
backend is configured, and on the table (D1) backend every error raised
inside the check is caught and converted to `allowed: true` — a table-backend
check never surfaces a thrown error.  (On the log (KV) backend, errors
propagate; see the counterexample.) -/
theorem rateLimit_fail_open_amended (identifier : String)
    (maxRequests windowSeconds now : Int) (d : RateDB) (msg : String)
    (kv₂ : Option RateKV) (db₂ : Option RateDB)
    (herr : rateLimitD1Body d ("ratelimit:" ++ identifier) maxRequests
      (windowSeconds * 1000) now = .err msg kv₂ db₂) :
    checkRateLimit none none identifier maxRequests windowSeconds now =
      .ok ⟨true, none⟩ none none ∧
    checkRateLimit none (some d) identifier maxRequests windowSeconds now =
      .ok ⟨true, none⟩ none db₂ ∧
    (∀ (d' : RateDB) (m : String) (kv' : Option RateKV) (db' : Option RateDB),
      checkRateLimit none (some d') identifier maxRequests windowSeconds now ≠
        .err m kv' db') := by
  refine ⟨rfl, ?_, ?_⟩
  · simp [checkRateLimit, herr]
  · intro d' m kv' db'
    cases hbody : rateLimitD1Body d' ("ratelimit:" ++ identifier) maxRequests
        (windowSeconds * 1000) now with
    | ok res kv₃ db₃ => simp [checkRateLimit, hbody]
    | err m₃ kv₃ db₃ => simp [checkRateLimit, hbody]

/-- Witness for the amended C4 at a concrete failing D1 select. -/
theorem rateLimit_fail_open_amended_witness :
    checkRateLimit none none "ip1" 10 60 0 = .ok ⟨true, none⟩ none none ∧
    checkRateLimit none (some ⟨[], true, false, false, false⟩) "ip1" 10 60 0 =
      .ok ⟨true, none⟩ none (some ⟨[], true, false, false, false⟩) ∧
    (∀ (d' : RateDB) (m : String) (kv' : Option RateKV) (db' : Option RateDB),
      checkRateLimit none (some d') "ip1" 10 60 0 ≠ .err m kv' db') :=
  rateLimit_fail_open_amended "ip1" 10 60 0 ⟨[], true, false, false, false⟩
    "d1 select" none (some ⟨[], true, false, false, false⟩) rfl

theorem rlTrace_add (identifier : String) (mx w now : Int) (m n : Nat) :
    ∀ (kv : Option RateKV) (db : Option RateDB),
    rlTrace identifier mx w now (m + n) kv db =
      rlTrace identifier mx w now m kv db ++
        rlTrace identifier mx w now n
          (rlStateAfter identifier mx w now m kv db).1
          (rlStateAfter identifier mx w now m kv db).2 := by
  induction m with
  | zero => intro kv db; simp [rlTrace, rlStateAfter]
  | succ m ih =>
      intro kv db
      have h1 : m + 1 + n = (m + n) + 1 := by omega
      rw [h1]
      simp only [rlTrace, rlStateAfter]
      rw [ih]
      simp

theorem rlTrace_kv_steps (identifier : String) (mx w now R : Int) :
    ∀ (n : Nat) (c : Int) (k : RateKV),
    k.failGet = false → k.failPut = false →
    lookupA k.data ("ratelimit:" ++ identifier) = some ⟨c, R⟩ →
    now < R → c + (n : Int) ≤ mx →
    (rlTrace identifier mx w now n (some k) none).map RLOutcome.result? =
        List.replicate n (some ⟨true, none⟩) ∧
    rlStateAfter identifier mx w now n (some k) none =
      (some { k with data := (putA k.data ("ratelimit:" ++ identifier)
        ⟨c + (n : Int), R⟩) }, none) := by
  intro n
  induction n with
  | zero =>
      intro c k hg hp hl hR hcn
      refine ⟨by simp [rlTrace], ?_⟩
      simp only [rlStateAfter, Nat.cast_zero, add_zero]
      rw [putA_self _ _ _ hl]
  | succ n ih =>
      intro c k hg hp hl hR hcn
      have hge : ¬ R ≤ now := not_le.mpr hR
      have hclt : ¬ mx ≤ c := by push_cast at hcn; omega
      have hstep : checkRateLimit (some k) none identifier mx w now =
          .ok ⟨true, none⟩
            (some { k with data := (putA k.data ("ratelimit:" ++ identifier)
              ⟨c + 1, R⟩) }) none := by
        simp [checkRateLimit, hg, hp, hl, ge_iff_le, hge, hclt]
      have hl' : lookupA (putA k.data ("ratelimit:" ++ identifier) ⟨c + 1, R⟩)
          ("ratelimit:" ++ identifier) = some ⟨c + 1, R⟩ := lookupA_putA_self _ _ _
      have hcn' : c + 1 + (n : Int) ≤ mx := by push_cast at hcn ⊢; omega
      obtain ⟨ih1, ih2⟩ := ih (c + 1)
        { k with data := (putA k.data ("ratelimit:" ++ identifier) ⟨c + 1, R⟩) }
        hg hp hl' hR hcn'
      constructor
      · simp only [rlTrace, hstep, RLOutcome.nextKV, RLOutcome.nextDB, List.map_cons,
          RLOutcome.result?]
        rw [ih1]
        simp [List.replicate_succ]
      · simp only [rlStateAfter, hstep, RLOutcome.nextKV, RLOutcome.nextDB]
        rw [ih2, putA_putA]
        have : c + 1 + (n : Int) = c + ((n + 1 : Nat) : Int) := by push_cast; ring
        rw [this]

theorem rlTrace_d1_steps (identifier : String) (mx w now R : Int) :
    ∀ (n : Nat) (c : Int) (rows0 : List (String × RateWindow)) (d : RateDB),
    d.failSelect = false → d.failUpdate = false →
    lookupA rows0 ("ratelimit:" ++ identifier) = none →
    d.rows = rows0 ++ [("ratelimit:" ++ identifier, ⟨c, R⟩)] →
    now < R → c + (n : Int) ≤ mx →
    (rlTrace identifier mx w now n none (some d)).map RLOutcome.result? =
        List.replicate n (some ⟨true, none⟩) ∧
    rlStateAfter identifier mx w now n none (some d) =
      (none, some { d with rows := (rows0 ++
        [("ratelimit:" ++ identifier, ⟨c + (n : Int), R⟩)]) }) := by
  intro n
  induction n with
  | zero =>
      intro c rows0 d hs hu h0 hrows hR hcn
      refine ⟨by simp [rlTrace], ?_⟩
      simp only [rlStateAfter, Nat.cast_zero, add_zero]
      rw [← hrows]
  | succ n ih =>
      intro c rows0 d hs hu h0 hrows hR hcn
      have hge : ¬ R ≤ now := not_le.mpr hR
      have hclt : ¬ mx ≤ c := by push_cast at hcn; omega
      have hlook : lookupA d.rows ("ratelimit:" ++ identifier) = some ⟨c, R⟩ := by
        rw [hrows, lookupA_append_right _ h0]
        simp [lookupA]
      have hbump : d.rows.map (fun r => if r.1 = "ratelimit:" ++ identifier then
          (r.1, (⟨r.2.count + 1, r.2.resetAt⟩ : RateWindow)) else r) =
          rows0 ++ [("ratelimit:" ++ identifier, ⟨c + 1, R⟩)] := by
        rw [hrows, List.map_append,
          map_bump_eq_self _ (forall_of_lookupA_eq_none h0)]
        simp
      have hstep : checkRateLimit none (some d) identifier mx w now =
          .ok ⟨true, none⟩ none
            (some { d with rows := (rows0 ++
              [("ratelimit:" ++ identifier, ⟨c + 1, R⟩)]) }) := by
        simp [checkRateLimit, rateLimitD1Body, hs, hu, hlook, ge_iff_le, hge, hclt, hbump]
      have hcn' : c + 1 + (n : Int) ≤ mx := by push_cast at hcn ⊢; omega
      obtain ⟨ih1, ih2⟩ := ih (c + 1) rows0
        { d with rows := (rows0 ++ [("ratelimit:" ++ identifier, ⟨c + 1, R⟩)]) }
        hs hu h0 rfl hR hcn'
      constructor
      · simp only [rlTrace, hstep, RLOutcome.nextKV, RLOutcome.nextDB, List.map_cons,
          RLOutcome.result?]
        rw [ih1]
        simp [List.replicate_succ]
      · simp only [rlStateAfter, hstep, RLOutcome.nextKV, RLOutcome.nextDB]
        rw [ih2]
        have : c + 1 + (n : Int) = c + ((n + 1 : Nat) : Int) := by push_cast; ring
        rw [this]

theorem rlTrace_one (identifier : String) (mx w now : Int) (kv : Option RateKV)
    (db : Option RateDB) :
    rlTrace identifier mx w now 1 kv db =
      [checkRateLimit kv db identifier mx w now] := rfl

theorem rlStateAfter_one (identifier : String) (mx w now : Int) (kv : Option RateKV)
    (db : Option RateDB) :
    rlStateAfter identifier mx w now 1 kv db =
      ((checkRateLimit kv db identifier mx w now).nextKV,
       (checkRateLimit kv db identifier mx w now).nextDB) := rfl

/-- C1: at a fixed current time, for every identifier with no pre-existing
window, eleven successive `checkRateLimit(id, 10, 60)` calls return
`allowed: true` on each of the first 10 and `allowed: false` with
`retryAfterSeconds = 60 > 0` on the 11th, on both the log (KV) backend and
the table (D1) backend. -/
theorem rate_limit_first_window (identifier : String) (now : Int) (k : RateKV)
    (d : RateDB)
    (hkg : k.failGet = false) (hkp : k.failPut = false)
    (hds : d.failSelect = false) (hdi : d.failInsert = false)
    (hdu : d.failUpdate = false)
    (hk : lookupA k.data ("ratelimit:" ++ identifier) = none)
    (hd : lookupA d.rows ("ratelimit:" ++ identifier) = none) :
    (rlTrace identifier 10 60 now 11 (some k) none).map RLOutcome.result? =
      List.replicate 10 (some ⟨true, none⟩) ++ [some ⟨false, some 60⟩] ∧
    (rlTrace identifier 10 60 now 11 none (some d)).map RLOutcome.result? =
      List.replicate 10 (some ⟨true, none⟩) ++ [some ⟨false, some 60⟩] ∧
    (0 : Int) < 60 := by
  have hR : now < now + 60000 := by omega
  have hge : ¬ now + 60000 ≤ now := by omega
  have hretry : ceilDiv (60000 : Int) 1000 = 60 := by decide
  refine ⟨?_, ?_, by norm_num⟩
  · have hstep1 : checkRateLimit (some k) none identifier 10 60 now =
        .ok ⟨true, none⟩ (some { k with data :=
          (putA k.data ("ratelimit:" ++ identifier) ⟨1, now + 60000⟩) }) none := by
      simp [checkRateLimit, hkg, hkp, hk]
    obtain ⟨h9map, h9state⟩ := rlTrace_kv_steps identifier 10 60 now (now + 60000)
      9 1 { k with data :=
        (putA k.data ("ratelimit:" ++ identifier) ⟨1, now + 60000⟩) }
      hkg hkp (lookupA_putA_self _ _ _) hR (by norm_num)
    have h9state' : rlStateAfter identifier 10 60 now 9
        (some { k with data :=
          (putA k.data ("ratelimit:" ++ identifier) ⟨1, now + 60000⟩) }) none =
        (some { k with data :=
          (putA k.data ("ratelimit:" ++ identifier) ⟨10, now + 60000⟩) }, none) := by
      rw [h9state, putA_putA]
      norm_num
    have hstep11 : checkRateLimit
        (some { k with data :=
          (putA k.data ("ratelimit:" ++ identifier) ⟨10, now + 60000⟩) })
        none identifier 10 60 now =
        .ok ⟨false, some 60⟩
          (some { k with data :=
            (putA k.data ("ratelimit:" ++ identifier) ⟨10, now + 60000⟩) })
          none := by
      simp [checkRateLimit, hkg, lookupA_putA_self, ge_iff_le, hge, hretry]
    rw [show (11 : Nat) = 1 + 10 from rfl, rlTrace_add, rlStateAfter_one, rlTrace_one,
      hstep1]
    simp only [RLOutcome.nextKV, RLOutcome.nextDB]
    rw [show (10 : Nat) = 9 + 1 from rfl, rlTrace_add, h9state']
    simp only [List.map_append]
    rw [h9map]
    rw [rlTrace_one]
    rw [hstep11]
    simp [RLOutcome.result?, List.replicate_succ]
  · have hstep1 : checkRateLimit none (some d) identifier 10 60 now =
        .ok ⟨true, none⟩ none (some { d with rows :=
          (d.rows ++ [("ratelimit:" ++ identifier, ⟨1, now + 60000⟩)]) }) := by
      simp [checkRateLimit, rateLimitD1Body, hds, hdi, hd]
    obtain ⟨h9map, h9state⟩ := rlTrace_d1_steps identifier 10 60 now (now + 60000)
      9 1 d.rows { d with rows :=
        (d.rows ++ [("ratelimit:" ++ identifier, ⟨1, now + 60000⟩)]) }
      hds hdu hd rfl hR (by norm_num)
    have h9state' : rlStateAfter identifier 10 60 now 9 none
        (some { d with rows :=
          (d.rows ++ [("ratelimit:" ++ identifier, ⟨1, now + 60000⟩)]) }) =
        (none, some { d with rows :=
          (d.rows ++ [("ratelimit:" ++ identifier, ⟨10, now + 60000⟩)]) }) := by
      rw [h9state]
      norm_num
    have hlook10 : lookupA
        (d.rows ++ [("ratelimit:" ++ identifier, (⟨10, now + 60000⟩ : RateWindow))])
        ("ratelimit:" ++ identifier) = some ⟨10, now + 60000⟩ := by
      rw [lookupA_append_right _ hd]
      simp [lookupA]
    have hstep11 : checkRateLimit none
        (some { d with rows :=
          (d.rows ++ [("ratelimit:" ++ identifier, ⟨10, now + 60000⟩)]) })
        identifier 10 60 now =
        .ok ⟨false, some 60⟩ none
          (some { d with rows :=
            (d.rows ++ [("ratelimit:" ++ identifier, ⟨10, now + 60000⟩)]) }) := by
      simp [checkRateLimit, rateLimitD1Body, hds, hlook10, ge_iff_le, hge, hretry]
    rw [show (11 : Nat) = 1 + 10 from rfl, rlTrace_add, rlStateAfter_one, rlTrace_one,
      hstep1]
    simp only [RLOutcome.nextKV, RLOutcome.nextDB]
    rw [show (10 : Nat) = 9 + 1 from rfl, rlTrace_add, h9state']
    simp only [List.map_append]
    rw [h9map]
    rw [rlTrace_one]
    rw [hstep11]
    simp [RLOutcome.result?, List.replicate_succ]

/-- Witness for C1 at empty concrete backends. -/
theorem rate_limit_first_window_witness :
    (rlTrace "ip1" 10 60 0 11 (some ⟨[], false, false⟩) none).map RLOutcome.result? =
      List.replicate 10 (some ⟨true, none⟩) ++ [some ⟨false, some 60⟩] ∧
    (rlTrace "ip1" 10 60 0 11 none (some ⟨[], false, false, false, false⟩)).map
        RLOutcome.result? =
      List.replicate 10 (some ⟨true, none⟩) ++ [some ⟨false, some 60⟩] ∧
    (0 : Int) < 60 :=
  rate_limit_first_window "ip1" 0 ⟨[], false, false⟩ ⟨[], false, false, false, false⟩
    rfl rfl rfl rfl rfl rfl rfl

/-! ## Submission-store lemmas and theorems -/

theorem submission_key_ne_index_key (x y : String) :
    "submission:" ++ x ≠ "index:" ++ y := by
  intro h
  have hd := congrArg String.data h
  rw [String.data_append, String.data_append] at hd
  rw [show ("submission:" : String).data =
      ['s','u','b','m','i','s','s','i','o','n',':'] from rfl,
    show ("index:" : String).data = ['i','n','d','e','x',':'] from rfl] at hd
  simp at hd

theorem submission_full_key_ne_index_key (f id y : String) :
    "submission:" ++ f ++ ":" ++ id ≠ "index:" ++ y := by
  rw [String.append_assoc, String.append_assoc]
  exact submission_key_ne_index_key _ _

theorem jsStartsWith_submission_self (x : String) :
    jsStartsWith ("submission:" ++ x) "submission:" = true := by
  rw [jsStartsWith, List.isPrefixOf_iff_prefix, String.data_append]
  exact List.prefix_append _ _

theorem jsStartsWith_index_not_submission (f : String) :
    jsStartsWith ("index:" ++ f) "submission:" = false := by
  rw [jsStartsWith, String.data_append]
  rw [show ("submission:" : String).data =
      ['s','u','b','m','i','s','s','i','o','n',':'] from rfl,
    show ("index:" : String).data = ['i','n','d','e','x',':'] from rfl]
  simp [List.isPrefixOf]

theorem submission_key_inj {f id id' : String}
    (h : "submission:" ++ f ++ ":" ++ id = "submission:" ++ f ++ ":" ++ id') :
    id = id' := by
  have hd := congrArg String.data h
  rw [String.data_append, String.data_append] at hd
  exact String.ext (List.append_cancel_left hd)

/-- C8: if the table (D1) backend is configured, `storeSubmission`,
`getSubmissions` and `getSubmission` use it exclusively: the result is the
same for every KV state and the KV state passes through `storeSubmission`
unchanged; when neither backend is configured, `storeSubmission` fails with
the `No storage backend configured` error while `getSubmissions` returns the
empty list and `getSubmission` returns `none`; and when only the log (KV)
backend is configured, `storeSubmission` uses it and succeeds. -/
theorem storage_backend_selection (s : FormSubmission) (id : String)
    (rows : SubDB) (kv : Option SubKV) (formId qid : String)
    (limit offset : Nat) :
    (storeSubmission s kv (some rows) id = .ok (id, kv,
      some (rows ++ [⟨id, s.formId, s.data, s.metadata, s.metadata.timestamp⟩]))) ∧
    (getSubmissions kv (some rows) formId limit offset =
      getSubmissions none (some rows) formId limit offset) ∧
    (getSubmission kv (some rows) qid = getSubmission none (some rows) qid) ∧
    (storeSubmission s none none id = .error "No storage backend configured") ∧
    (getSubmissions none none formId limit offset = []) ∧
    (getSubmission none none qid = none) ∧
    (∀ store : SubKV, ∃ store' : SubKV,
      storeSubmission s (some store) none id = .ok (id, some store', none)) :=
  ⟨rfl, rfl, rfl, rfl, rfl, rfl, fun _ => ⟨_, rfl⟩⟩

/-- Closed form of the log-backend branch of `storeSubmission`: write the
record under `submission:{formId}:{id}`, then rewrite `index:{formId}` with
the id prepended and the list trimmed to 1000. -/
theorem storeSubmission_kv (s : FormSubmission) (id : String) (store : SubKV) :
    storeSubmission s (some store) none id = .ok (id,
      some (putA (putA store ("submission:" ++ s.formId ++ ":" ++ id)
          (.sub { s with id := id }))
        ("index:" ++ s.formId) (.idx ((id :: formIndex store s.formId).take 1000))),
      none) := by
  have hne := submission_full_key_ne_index_key s.formId id s.formId
  simp only [storeSubmission, formIndex, lookupA_putA_ne _ _ hne]

theorem formIndex_putA_idx (store : SubKV) (f : String) (v : KVVal) (L : List String)
    (k : String) :
    formIndex (putA (putA store k v) ("index:" ++ f) (.idx L)) f = L := by
  simp [formIndex, lookupA_putA_self]

theorem take_append_take (n : Nat) (X Y : List String) :
    (X ++ Y.take n).take n = (X ++ Y).take n := by
  rw [List.take_append_eq_append_take, List.take_append_eq_append_take,
    List.take_take, min_eq_left (Nat.sub_le n X.length)]

/-- C5: on the log backend, for every `formId` and every finite sequence of
store operations for that `formId`, starting from any state whose index is
within bounds, the per-form index after the sequence is exactly the reversed
sequence of inserted ids (newest first) prepended to the initial index and
trimmed to its first 1000 entries — so its length never exceeds 1000, it is
ordered newest-first by insertion, and on overflow the oldest (last) entries
are the ones dropped. -/
theorem log_index_bounded (f : String) :
    ∀ (ops : List (FormSubmission × String)) (store : SubKV),
    (∀ op ∈ ops, op.1.formId = f) →
    (formIndex store f).length ≤ 1000 →
    formIndex (storeSeq ops store) f =
      ((ops.map Prod.snd).reverse ++ formIndex store f).take 1000 ∧
    (formIndex (storeSeq ops store) f).length ≤ 1000 := by
  intro ops
  induction ops with
  | nil =>
      intro store _ hlen
      refine ⟨?_, hlen⟩
      simp [storeSeq, List.take_of_length_le hlen]
  | cons op rest ih =>
      intro store hforms hlen
      obtain ⟨s, id⟩ := op
      have hf : s.formId = f := hforms (s, id) (by simp)
      have hstep : storeSeq ((s, id) :: rest) store =
          storeSeq rest (putA (putA store ("submission:" ++ s.formId ++ ":" ++ id)
            (.sub { s with id := id }))
          ("index:" ++ s.formId) (.idx ((id :: formIndex store s.formId).take 1000))) := by
        simp only [storeSeq, storeSubmission_kv]
      have hidx : formIndex (putA (putA store ("submission:" ++ s.formId ++ ":" ++ id)
          (.sub { s with id := id }))
          ("index:" ++ s.formId) (.idx ((id :: formIndex store s.formId).take 1000))) f =
          (id :: formIndex store f).take 1000 := by
        rw [hf] at *
        exact formIndex_putA_idx _ _ _ _ _
      have hlen' : ((id :: formIndex store f).take 1000).length ≤ 1000 := by
        rw [List.length_take]
        exact min_le_left _ _
      obtain ⟨ih1, ih2⟩ := ih _ (fun p hp => hforms p (by simp [hp])) (hidx ▸ hlen')
      rw [hstep]
      refine ⟨?_, ih2⟩
      rw [ih1, hidx]
      rw [take_append_take]
      simp

/-- Witness for C5: two stores into an empty namespace leave the index
`["b", "a"]`, within bounds. -/
theorem log_index_bounded_witness :
    formIndex (storeSeq [(⟨"f", [], ⟨"ip", "ua", "t0", none⟩⟩, "a"),
        (⟨"f", [], ⟨"ip", "ua", "t1", none⟩⟩, "b")] []) "f" =
      (([(⟨"f", [], ⟨"ip", "ua", "t0", none⟩⟩, "a"),
        (⟨"f", [], ⟨"ip", "ua", "t1", none⟩⟩, "b")].map
          (Prod.snd (α := FormSubmission))).reverse ++ formIndex [] "f").take 1000 ∧
    (formIndex (storeSeq [(⟨"f", [], ⟨"ip", "ua", "t0", none⟩⟩, "a"),
        (⟨"f", [], ⟨"ip", "ua", "t1", none⟩⟩, "b")] []) "f").length ≤ 1000 :=
  log_index_bounded "f"
    [(⟨"f", [], ⟨"ip", "ua", "t0", none⟩⟩, "a"),
     (⟨"f", [], ⟨"ip", "ua", "t1", none⟩⟩, "b")] []
    (by decide) (by decide)

theorem lexLt_asymm : ∀ (a b : List Char), lexLt a b = true → lexLt b a = false := by
  intro a
  induction a with
  | nil =>
      intro b h
      cases b with
      | nil => simp [lexLt] at h
      | cons y ys => simp [lexLt]
  | cons x xs ih =>
      intro b h
      cases b with
      | nil => simp [lexLt] at h
      | cons y ys =>
          by_cases hxy : x < y
          · have hyx : ¬ y < x := lt_asymm hxy
            simp [lexLt, hxy, hyx]
          · by_cases hyx : y < x
            · simp [lexLt, hxy, hyx] at h
            · simp [lexLt, hxy, hyx] at h ⊢
              exact ih ys h

/-- C7 (amended): after storing two submissions for the same `formId` in
sequence into an empty store, `listByForm(formId, 10, 0)` returns exactly
those two entries; on the log backend they are always ordered newest-first
by insertion (the second-stored submission first); on the table backend the
rows are ordered by `created_at` (copied from the caller-supplied
`metadata.timestamp`), so the second-stored submission comes first provided
its timestamp is strictly greater than the first's. -/
theorem list_two_newest_first (s1 s2 : FormSubmission) (id1 id2 : String)
    (hf : s2.formId = s1.formId) (hid : id1 ≠ id2) :
    (∀ store1 store2,
      storeSubmission s1 (some []) none id1 = .ok (id1, some store1, none) →
      storeSubmission s2 (some store1) none id2 = .ok (id2, some store2, none) →
      getSubmissions (some store2) none s1.formId 10 0 =
        [{ s2 with id := id2 }, { s1 with id := id1 }]) ∧
    (∀ rows1 rows2,
      lexLt s1.metadata.timestamp.data s2.metadata.timestamp.data = true →
      storeSubmission s1 none (some []) id1 = .ok (id1, none, some rows1) →
      storeSubmission s2 none (some rows1) id2 = .ok (id2, none, some rows2) →
      getSubmissions none (some rows2) s1.formId 10 0 =
        [{ s2 with id := id2 }, { s1 with id := id1 }]) := by
  have e1 : ("submission:" ++ s1.formId ++ ":" ++ id1) ≠ "index:" ++ s1.formId :=
    submission_full_key_ne_index_key _ _ _
  have e2 : ("submission:" ++ s1.formId ++ ":" ++ id2) ≠ "index:" ++ s1.formId :=
    submission_full_key_ne_index_key _ _ _
  have e3 : ("submission:" ++ s1.formId ++ ":" ++ id1) ≠
      "submission:" ++ s1.formId ++ ":" ++ id2 := fun h => hid (submission_key_inj h)
  constructor
  · intro store1 store2 h1 h2
    rw [storeSubmission_kv] at h1 h2
    simp only [Except.ok.injEq, Prod.mk.injEq, Option.some.injEq, true_and] at h1 h2
    obtain ⟨h1, -⟩ := h1
    obtain ⟨h2, -⟩ := h2
    subst h1
    subst h2
    simp [getSubmissions, formIndex, putA, lookupA, hf, e1, e2, e3,
      Ne.symm e1, Ne.symm e2, Ne.symm e3]
  · intro rows1 rows2 hts h1 h2
    simp only [storeSubmission, Except.ok.injEq, Prod.mk.injEq, List.nil_append,
      true_and, Option.some.injEq] at h1 h2
    subst h1
    subst h2
    have hlt : lexLt s2.metadata.timestamp.data s1.metadata.timestamp.data = false :=
      lexLt_asymm _ _ hts
    simp [getSubmissions, sortByCreatedAtDesc, insertDesc, hf, hlt,
      List.take_of_length_le, rowToStored]
    rw [← hf]

/-- Witness for C7 (amended) with two concrete submissions and increasing
timestamps. -/
theorem list_two_newest_first_witness :
    getSubmissions (some wStore2) none "f1" 10 0 =
      [⟨wSub2, "b"⟩, ⟨wSub1, "a"⟩] ∧
    getSubmissions none
      (some [⟨"a", "f1", [], ⟨"ip", "ua", "t1", none⟩, "t1"⟩,
             ⟨"b", "f1", [], ⟨"ip", "ua", "t2", none⟩, "t2"⟩])
      "f1" 10 0 =
      [⟨wSub2, "b"⟩, ⟨wSub1, "a"⟩] := by
  have h := list_two_newest_first wSub1 wSub2 "a" "b" rfl (by decide)
  exact ⟨h.1 wStore1 wStore2 rfl rfl, h.2 _ _ (by decide) rfl rfl⟩

/-- C7 counterexample: on the table backend, two submissions stored in
sequence whose `metadata.timestamp` values are inverted come back from
`listByForm` ordered first-stored first (descending `created_at`), not
second-stored first as the claim states. -/
theorem listByForm_table_order_cex :
    storeSubmission cexSubA none (some []) "id1" =
      .ok ("id1", none, some [cexRow1]) ∧
    storeSubmission cexSubB none (some [cexRow1]) "id2" =
      .ok ("id2", none, some cexRows) ∧
    getSubmissions none (some cexRows) "f1" 10 0 =
      [{ cexSubA with id := "id1" }, { cexSubB with id := "id2" }] ∧
    getSubmissions none (some cexRows) "f1" 10 0 ≠
      [{ cexSubB with id := "id2" }, { cexSubA with id := "id1" }] := by
  refine ⟨rfl, rfl, by decide, by decide⟩

theorem jsEndsWith_key (pre id : String) :
    jsEndsWith (pre ++ ":" ++ id) (":" ++ id) = true := by
  simp only [jsEndsWith, List.isSuffixOf_iff_suffix, String.data_append]
  rw [List.append_assoc]
  exact List.suffix_append _ _

theorem mem_insortStr {x k : String} {l : List String} :
    x ∈ insortStr k l ↔ x = k ∨ x ∈ l := by
  induction l with
  | nil => simp [insortStr]
  | cons y ys ih =>
      by_cases h : lexLt k.data y.data
      · simp [insortStr, h]
      · simp [insortStr, h, ih]
        tauto

theorem mem_sortStr {x : String} {l : List String} : x ∈ sortStr l ↔ x ∈ l := by
  induction l with
  | nil => simp [sortStr]
  | cons y ys ih => simp [sortStr, mem_insortStr, ih]

theorem length_insortStr (k : String) (l : List String) :
    (insortStr k l).length = l.length + 1 := by
  induction l with
  | nil => simp [insortStr]
  | cons x xs ih =>
      by_cases h : lexLt k.data x.data
      · simp [insortStr, h]
      · simp [insortStr, h, ih]

theorem length_sortStr (l : List String) : (sortStr l).length = l.length := by
  induction l with
  | nil => simp [sortStr]
  | cons x xs ih => simp [sortStr, length_insortStr, ih]

theorem kvListKeys_of_le {store : SubKV} {pre : String}
    (h : ((store.map Prod.fst).filter (fun k => jsStartsWith k pre)).length ≤ 1000) :
    kvListKeys store pre =
      sortStr ((store.map Prod.fst).filter (fun k => jsStartsWith k pre)) := by
  rw [kvListKeys]
  exact List.take_of_length_le (by rw [length_sortStr]; exact h)

theorem length_filterKeys_putA_le {α : Type} (m : List (String × α)) (k : String)
    (v : α) (p : String → Bool) :
    (((putA m k v).map Prod.fst).filter p).length ≤
      ((m.map Prod.fst).filter p).length + 1 := by
  induction m with
  | nil => cases h : p k <;> simp [putA, h]
  | cons q rest ih =>
      obtain ⟨a, b⟩ := q
      by_cases ha : a = k
      · subst ha
        cases h : p a <;> simp [putA, h]
      · cases h : p a <;> simp [putA, ha, h] <;> omega

theorem length_filterKeys_putA_of_false {α : Type} (m : List (String × α)) (k : String)
    (v : α) (p : String → Bool) (hp : p k = false) :
    (((putA m k v).map Prod.fst).filter p).length ≤
      ((m.map Prod.fst).filter p).length := by
  induction m with
  | nil => simp [putA, hp]
  | cons q rest ih =>
      obtain ⟨a, b⟩ := q
      by_cases ha : a = k
      · subst ha
        cases h : p a <;> simp [putA, h]
      · cases h : p a <;> simp [putA, ha, h] <;> omega

theorem mem_sortedKeys {store : SubKV} {pre k : String} :
    k ∈ sortStr ((store.map Prod.fst).filter (fun j => jsStartsWith j pre)) ↔
      (jsStartsWith k pre = true ∧ ∃ v, (k, v) ∈ store) := by
  rw [mem_sortStr, List.mem_filter]
  constructor
  · rintro ⟨hmem, hpre⟩
    obtain ⟨p, hp, hpk⟩ := List.mem_map.mp hmem
    exact ⟨hpre, p.2, by rwa [show (k, p.2) = p from by rw [← hpk]]⟩
  · rintro ⟨hpre, v, hv⟩
    exact ⟨List.mem_map.mpr ⟨(k, v), hv, rfl⟩, hpre⟩

theorem scanFor_eq_of_unique (store : SubKV) (q key0 : String) :
    ∀ ks : List String, key0 ∈ ks →
    jsEndsWith key0 (":" ++ q) = true →
    (∀ k ∈ ks, jsEndsWith k (":" ++ q) = true → k = key0) →
    scanFor store q ks =
      (match lookupA store key0 with
        | some (.sub s) => some s
        | _ => none) := by
  intro ks
  induction ks with
  | nil => simp
  | cons k rest ih =>
      intro hmem hkey0 huniq
      by_cases hk : jsEndsWith k (":" ++ q) = true
      · have hkk : k = key0 := huniq k (by simp) hk
        subst hkk
        simp [scanFor, hk]
      · have hkne : k ≠ key0 := fun h => hk (h ▸ hkey0)
        have hmem' : key0 ∈ rest := by
          rcases List.mem_cons.mp hmem with h | h
          · exact absurd h.symm hkne
          · exact h
        rw [scanFor, if_neg (by simpa using hk)]
        exact ih hmem' hkey0 (fun k' hk' hm => huniq k' (by simp [hk']) hm)

/-- C2: storing a submission `s` and then calling `getById` with the
returned id yields `s` plus the assigned id, on both backends.  The
freshness of the `nanoid()` output is the hypothesis: on the table backend
no existing row carries the id, and on the log backend no existing key ends
in `:{id}`. -/
theorem store_then_get_roundtrip (s : FormSubmission) (id : String)
    (rows : SubDB) (store : SubKV) (kv0 : Option SubKV)
    (hrows : ∀ r ∈ rows, r.id ≠ id)
    (hstore : ∀ p ∈ store, jsEndsWith p.1 (":" ++ id) = false)
    (hpage : ((store.map Prod.fst).filter
      (fun k => jsStartsWith k "submission:")).length ≤ 999) :
    (storeSubmission s kv0 (some rows) id = .ok (id, kv0,
        some (rows ++ [⟨id, s.formId, s.data, s.metadata, s.metadata.timestamp⟩])) ∧
      getSubmission none
        (some (rows ++ [⟨id, s.formId, s.data, s.metadata, s.metadata.timestamp⟩]))
        id = some ⟨s, id⟩) ∧
    (∀ store2, storeSubmission s (some store) none id = .ok (id, some store2, none) →
      getSubmission (some store2) none id = some ⟨s, id⟩) := by
  constructor
  · refine ⟨rfl, ?_⟩
    have hfind : rows.find? (fun r => decide (r.id = id)) = none :=
      List.find?_eq_none.mpr (fun r hr => by simp [hrows r hr])
    simp [getSubmission, List.find?_append, hfind, rowToStored]
  · intro store2 h2
    rw [storeSubmission_kv] at h2
    simp only [Except.ok.injEq, Prod.mk.injEq, Option.some.injEq, true_and] at h2
    obtain ⟨h2, -⟩ := h2
    subst h2
    have hne : ("submission:" ++ s.formId ++ ":" ++ id) ≠ "index:" ++ s.formId :=
      submission_full_key_ne_index_key _ _ _
    have hk0mem : ("submission:" ++ s.formId ++ ":" ++ id, KVVal.sub ⟨s, id⟩) ∈
        putA (putA store ("submission:" ++ s.formId ++ ":" ++ id) (.sub ⟨s, id⟩))
          ("index:" ++ s.formId)
          (.idx ((id :: formIndex store s.formId).take 1000)) :=
      mem_putA_of_ne (putA_mem_self _ _ _) hne
    have hself : jsEndsWith ("submission:" ++ s.formId ++ ":" ++ id) (":" ++ id) =
        true := jsEndsWith_key ("submission:" ++ s.formId) id
    have hstarts : jsStartsWith ("submission:" ++ s.formId ++ ":" ++ id)
        "submission:" = true := by
      rw [String.append_assoc, String.append_assoc]
      exact jsStartsWith_submission_self _
    have hlen : (((putA (putA store ("submission:" ++ s.formId ++ ":" ++ id)
        (.sub ⟨s, id⟩)) ("index:" ++ s.formId)
          (.idx ((id :: formIndex store s.formId).take 1000))).map
        Prod.fst).filter (fun j => jsStartsWith j "submission:")).length ≤ 1000 := by
      have h1 := length_filterKeys_putA_of_false
        (putA store ("submission:" ++ s.formId ++ ":" ++ id) (.sub ⟨s, id⟩))
        ("index:" ++ s.formId) (KVVal.idx ((id :: formIndex store s.formId).take 1000))
        (fun j => jsStartsWith j "submission:") (jsStartsWith_index_not_submission _)
      have h2 := length_filterKeys_putA_le store
        ("submission:" ++ s.formId ++ ":" ++ id) (KVVal.sub ⟨s, id⟩)
        (fun j => jsStartsWith j "submission:")
      omega
    rw [getSubmission, kvListKeys_of_le hlen,
      scanFor_eq_of_unique _ id ("submission:" ++ s.formId ++ ":" ++ id)
      _ (mem_sortedKeys.mpr ⟨hstarts, _, hk0mem⟩) hself ?uniq]
    · rw [lookupA_putA_ne _ _ (Ne.symm hne), lookupA_putA_self]
    case uniq =>
      intro k hk hkend
      obtain ⟨hkpre, v, hkv⟩ := mem_sortedKeys.mp hk
      rcases mem_putA hkv with h | h
      · exfalso
        have : k = "index:" ++ s.formId := congrArg Prod.fst h
        rw [this, jsStartsWith_index_not_submission] at hkpre
        exact Bool.false_ne_true hkpre
      · rcases mem_putA h with h | h
        · exact congrArg Prod.fst h
        · exfalso
          rw [hstore (k, v) h] at hkend
          exact Bool.false_ne_true hkend

/-- Witness for C2: a concrete submission stored into empty backends is
returned intact by `getById`, with the assigned id, on both backends. -/
theorem store_then_get_roundtrip_witness :
    getSubmission none
      (some ([] ++ [⟨"xyz", "f", [("a", "1")], ⟨"ip", "ua", "t", none⟩, "t"⟩]))
      "xyz" = some ⟨⟨"f", [("a", "1")], ⟨"ip", "ua", "t", none⟩⟩, "xyz"⟩ ∧
    getSubmission (some wrtStore) none "xyz" =
      some ⟨⟨"f", [("a", "1")], ⟨"ip", "ua", "t", none⟩⟩, "xyz"⟩ := by
  have h := store_then_get_roundtrip ⟨"f", [("a", "1")], ⟨"ip", "ua", "t", none⟩⟩
    "xyz" [] [] none (by simp) (by simp) (by decide)
  exact ⟨h.1.2, h.2 wrtStore rfl⟩

theorem suffix_colon_eq : ∀ (A q i : List Char), ':' ∉ q → ':' ∉ i →
    (':' :: q) <:+ (A ++ ':' :: i) → q = i := by
  intro A
  induction A with
  | nil =>
      intro q i hq hi h
      rw [List.nil_append] at h
      rcases List.suffix_cons_iff.mp h with h | h
      · exact (List.cons_eq_cons.mp h).2
      · exact absurd (h.subset (by simp)) hi
  | cons a A ih =>
      intro q i hq hi h
      rcases List.suffix_cons_iff.mp h with h | h
      · obtain ⟨-, hq'⟩ := List.cons_eq_cons.mp h
        exact absurd (by rw [hq']; exact List.mem_append.mpr (Or.inr (by simp))) hq
      · exact ih q i hq hi h

theorem reachable_keyWF {P : String → Prop} :
    ∀ {store : SubKV}, ReachableKV P store → ∀ p ∈ store, KeyWF P p := by
  intro store h
  induction h with
  | empty => simp
  | step s id st st' hreach hP hid hstore ih =>
      rw [storeSubmission_kv] at hstore
      simp only [Except.ok.injEq, Prod.mk.injEq, Option.some.injEq, true_and] at hstore
      obtain ⟨hstore, -⟩ := hstore
      subst hstore
      intro p hp
      rcases mem_putA hp with h | h
      · subst h
        exact Or.inl ⟨s.formId, _, rfl, rfl⟩
      · rcases mem_putA h with h | h
        · subst h
          exact Or.inr ⟨s.formId, ⟨s, id⟩, rfl, rfl, hP, hid⟩
        · exact ih p h

theorem scanFor_some {store : SubKV} {q : String} {s : StoredSubmission} :
    ∀ {ks : List String}, scanFor store q ks = some s →
    ∃ k, jsEndsWith k (":" ++ q) = true ∧ lookupA store k = some (.sub s) := by
  intro ks
  induction ks with
  | nil => intro h; simp [scanFor] at h
  | cons k rest ih =>
      intro h
      by_cases hk : jsEndsWith k (":" ++ q) = true
      · rw [scanFor, if_pos (by simpa using hk)] at h
        refine ⟨k, hk, ?_⟩
        cases hlook : lookupA store k with
        | none => rw [hlook] at h; simp at h
        | some v =>
            cases v with
            | sub s' =>
                rw [hlook] at h
                simp at h
                rw [h]
            | idx ids => rw [hlook] at h; simp at h
      · rw [scanFor, if_neg (by simpa using hk)] at h
        exact ih h

/-- C9 (amended): on the log backend, for every store state reachable by
store operations whose formIds are free of the `:` separator, and every
queried id that is itself free of `:`, if `getById` returns a submission
then its `id` equals the queried id.  (When a formId contains `:`, the
suffix match can return a submission whose id differs from the queried id;
see the counterexample.) -/
theorem getById_id_matches (store : SubKV) (q : String) (s : StoredSubmission)
    (hreach : ReachableKV NoColon store) (hq : NoColon q)
    (hget : getSubmission (some store) none q = some s) :
    s.id = q := by
  rw [getSubmission] at hget
  obtain ⟨k, hkend, hklook⟩ := scanFor_some hget
  have hkmem := lookupA_mem hklook
  rcases reachable_keyWF hreach _ hkmem with h | h
  · obtain ⟨f, ids, hk1, hk2⟩ := h
    simp at hk2
  · obtain ⟨f, t, hk1, hk2, hPf, htid⟩ := h
    have hts : t = s := by
      have h2 : KVVal.sub s = KVVal.sub t := hk2
      simpa using h2.symm
    subst hts
    have hk1' : k = "submission:" ++ f ++ ":" ++ t.id := hk1
    simp only [jsEndsWith, List.isSuffixOf_iff_suffix] at hkend
    rw [hk1'] at hkend
    simp only [String.data_append] at hkend
    have hmain : q.data = t.id.data :=
      suffix_colon_eq ("submission:".data ++ f.data) q.data t.id.data hq htid
        (by rw [List.append_assoc]; simpa using hkend)
    exact String.ext hmain.symm

/-- Witness for the amended C9: a colon-free reachable store and query. -/
theorem getById_id_matches_witness :
    ReachableKV NoColon plainStore ∧ NoColon "abc" ∧
    getSubmission (some plainStore) none "abc" =
      some ⟨⟨"f", [], ⟨"ip", "ua", "t", none⟩⟩, "abc"⟩ ∧
    (⟨⟨"f", [], ⟨"ip", "ua", "t", none⟩⟩, "abc"⟩ : StoredSubmission).id = "abc" := by
  have hreach : ReachableKV NoColon plainStore :=
    ReachableKV.step ⟨"f", [], ⟨"ip", "ua", "t", none⟩⟩ "abc" [] plainStore
      ReachableKV.empty (by decide) (by decide) rfl
  exact ⟨hreach, by decide, by decide,
    getById_id_matches plainStore "abc" _ hreach (by decide) (by decide)⟩

/-- C9 counterexample: in a store reachable with the colon-containing formId
`g:X`, querying `getById("X:Y")` matches the key `submission:g:X:Y` by
suffix and returns the submission whose id is `"Y" ≠ "X:Y"`. -/
theorem getById_suffix_collision_cex :
    ReachableKV (fun _ => True) colonStore ∧
    getSubmission (some colonStore) none "X:Y" =
      some ⟨⟨"g:X", [], ⟨"ip", "ua", "t", none⟩⟩, "Y"⟩ ∧
    (⟨⟨"g:X", [], ⟨"ip", "ua", "t", none⟩⟩, "Y"⟩ : StoredSubmission).id ≠ "X:Y" := by
  have hreach : ReachableKV (fun _ => True) colonStore :=
    ReachableKV.step ⟨"g:X", [], ⟨"ip", "ua", "t", none⟩⟩ "Y" [] colonStore
      ReachableKV.empty trivial (by decide) rfl
  exact ⟨hreach, by decide, by decide⟩

theorem digitChar_lt_iff : ∀ a < 10, ∀ b < 10,
    (Nat.digitChar a < Nat.digitChar b ↔ a < b) := by decide

theorem digitChar_inj_iff : ∀ a < 10, ∀ b < 10,
    (Nat.digitChar a = Nat.digitChar b ↔ a = b) := by decide

theorem digitChar_ne_colon : ∀ a < 10, Nat.digitChar a ≠ ':' := by decide

theorem pad3_no_colon {n : Nat} (hn : n < 1000) : ':' ∉ (pad3 n).data := by
  intro hmem
  simp [pad3] at hmem
  rcases hmem with h | h | h
  · exact digitChar_ne_colon (n / 100) (by omega) h.symm
  · exact digitChar_ne_colon (n / 10 % 10) (by omega) h.symm
  · exact digitChar_ne_colon (n % 10) (by omega) h.symm

theorem pad3_inj {a b : Nat} (ha : a < 1000) (hb : b < 1000)
    (h : pad3 a = pad3 b) : a = b := by
  have hd : [Nat.digitChar (a / 100), Nat.digitChar (a / 10 % 10),
      Nat.digitChar (a % 10)] = [Nat.digitChar (b / 100),
      Nat.digitChar (b / 10 % 10), Nat.digitChar (b % 10)] := congrArg String.data h
  simp only [List.cons.injEq, and_true] at hd
  obtain ⟨h1, h2, h3⟩ := hd
  have e1 := (digitChar_inj_iff (a / 100) (by omega) (b / 100) (by omega)).mp h1
  have e2 := (digitChar_inj_iff (a / 10 % 10) (by omega) (b / 10 % 10) (by omega)).mp h2
  have e3 := (digitChar_inj_iff (a % 10) (by omega) (b % 10) (by omega)).mp h3
  omega

theorem pad3_lexLt {a b : Nat} (hab : a < b) (hb : b < 1000) :
    lexLt (pad3 a).data (pad3 b).data = true := by
  have ea : (pad3 a).data = [Nat.digitChar (a / 100), Nat.digitChar (a / 10 % 10),
      Nat.digitChar (a % 10)] := rfl
  have eb : (pad3 b).data = [Nat.digitChar (b / 100), Nat.digitChar (b / 10 % 10),
      Nat.digitChar (b % 10)] := rfl
  rw [ea, eb]
  rcases Nat.lt_trichotomy (a / 100) (b / 100) with h1 | h1 | h1
  · have hc := (digitChar_lt_iff (a / 100) (by omega) (b / 100) (by omega)).mpr h1
    simp [lexLt, hc]
  · have hc : Nat.digitChar (a / 100) = Nat.digitChar (b / 100) := by rw [h1]
    rw [hc]
    rcases Nat.lt_trichotomy (a / 10 % 10) (b / 10 % 10) with h2 | h2 | h2
    · have hc2 := (digitChar_lt_iff (a / 10 % 10) (by omega) (b / 10 % 10)
        (by omega)).mpr h2
      simp [lexLt, hc2]
    · have hc2 : Nat.digitChar (a / 10 % 10) = Nat.digitChar (b / 10 % 10) := by rw [h2]
      rw [hc2]
      have h3 : a % 10 < b % 10 := by omega
      have hc3 := (digitChar_lt_iff (a % 10) (by omega) (b % 10) (by omega)).mpr h3
      simp [lexLt, hc3]
    · omega
  · omega

theorem lexLt_append_left : ∀ (p x y : List Char),
    lexLt (p ++ x) (p ++ y) = lexLt x y := by
  intro p
  induction p with
  | nil => intro x y; rfl
  | cons c cs ih => intro x y; simp [lexLt, ih]

theorem lexLt_irrefl : ∀ l : List Char, lexLt l l = false := by
  intro l
  induction l with
  | nil => rfl
  | cons c cs ih => simp [lexLt, ih]

theorem ne_of_lexLt {a b : String} (h : lexLt a.data b.data = true) : a ≠ b := by
  intro he
  rw [he, lexLt_irrefl] at h
  exact Bool.false_ne_true h

theorem aKey_data (n : Nat) :
    (aKey n).data = "submission:a:".data ++ (pad3 n).data := by
  simp [aKey, String.data_append]

theorem aKey_lt_aKey {i j : Nat} (hij : i < j) (hj : j < 1000) :
    lexLt (aKey i).data (aKey j).data = true := by
  rw [aKey_data, aKey_data, lexLt_append_left]
  exact pad3_lexLt hij hj

theorem aKey_inj {i j : Nat} (hi : i < 1000) (hj : j < 1000) (h : aKey i = aKey j) :
    i = j := by
  have hd := congrArg String.data h
  rw [aKey_data, aKey_data] at hd
  exact pad3_inj hi hj (String.ext (List.append_cancel_left hd))

theorem aKey_lt_bKey (n : Nat) : lexLt (aKey n).data bKey.data = true := by
  have h1 : (aKey n).data = "submission:".data ++ ('a' :: ':' :: (pad3 n).data) := by
    simp [aKey, String.data_append]
  have h2 : bKey.data = "submission:".data ++ ('b' :: ':' :: 'x' :: []) := by
    simp [bKey, String.data_append]
  rw [h1, h2, lexLt_append_left]
  simp [lexLt, show ('a' : Char) < 'b' from by decide]

theorem aKey_ne_bKey (n : Nat) : aKey n ≠ bKey := ne_of_lexLt (aKey_lt_bKey n)

theorem putA_eq_append {α : Type} {m : List (String × α)} {k : String} (v : α)
    (h : ∀ p ∈ m, p.1 ≠ k) : putA m k v = m ++ [(k, v)] := by
  induction m with
  | nil => simp [putA]
  | cons q rest ih =>
      obtain ⟨a, b⟩ := q
      have ha : a ≠ k := h (a, b) (by simp)
      simp [putA, ha]
      exact ih (fun p hp => h p (by simp [hp]))

theorem putA_cons_ne {α : Type} (a : String) (b : α) (rest : List (String × α))
    (k : String) (v : α) (h : a ≠ k) :
    putA ((a, b) :: rest) k v = (a, b) :: putA rest k v := by
  simp [putA, h]

theorem putA_cons_eq {α : Type} (a : String) (b : α) (rest : List (String × α))
    (v : α) : putA ((a, b) :: rest) a v = (a, v) :: rest := by
  simp [putA]

theorem storeSeq_cons (s : FormSubmission) (id : String)
    (rest : List (FormSubmission × String)) (store store' : SubKV)
    (h : storeSubmission s (some store) none id = .ok (id, some store', none)) :
    storeSeq ((s, id) :: rest) store = storeSeq rest store' := by
  simp only [storeSeq, h]

theorem mem_aState {t : Nat} {p : String × KVVal} (hp : p ∈ aState t) :
    p.1 = "index:" ++ "a" ∨ ∃ n, n ≤ t ∧ p.1 = aKey n := by
  rcases List.mem_cons.mp hp with h | h
  · right
    exact ⟨0, by omega, by rw [h]⟩
  · rcases List.mem_cons.mp h with h | h
    · left
      rw [h]
    · obtain ⟨n, hn, hpk⟩ := List.mem_map.mp h
      right
      refine ⟨n + 1, ?_, by rw [← hpk]⟩
      have := List.mem_range.mp hn
      omega

theorem formIndex_aState (t : Nat) :
    formIndex (aState t) "a" = ((List.range (t + 1)).reverse).map pad3 := by
  have h0 : aKey 0 ≠ "index:a" :=
    submission_full_key_ne_index_key "a" (pad3 0) "a"
  simp [formIndex, aState, lookupA, h0]

theorem aState_step {t : Nat} (h2 : t + 1 < 1000) :
    storeSubmission aSub (some (aState t)) none (pad3 (t + 1)) =
      .ok (pad3 (t + 1), some (aState (t + 1)), none) := by
  rw [storeSubmission_kv]
  have hform : aSub.formId = "a" := rfl
  rw [hform]
  have hfresh : ∀ p ∈ aState t, p.1 ≠ "submission:" ++ "a" ++ ":" ++ pad3 (t + 1) := by
    intro p hp
    rcases mem_aState hp with h | ⟨n, hn, h⟩
    · rw [h]
      exact Ne.symm (submission_full_key_ne_index_key "a" (pad3 (t + 1)) "a")
    · rw [h]
      intro he
      have := aKey_inj (by omega) (by omega) he
      omega
  have hidx : (pad3 (t + 1) :: formIndex (aState t) "a").take 1000 =
      ((List.range (t + 2)).reverse).map pad3 := by
    rw [formIndex_aState]
    rw [List.take_of_length_le (by simp; omega)]
    rw [show List.range (t + 2) = List.range (t + 1) ++ [t + 1] from
      List.range_succ (t + 1)]
    simp
  rw [hidx, putA_eq_append _ hfresh]
  have h0 : aKey 0 ≠ "index:" ++ "a" :=
    submission_full_key_ne_index_key "a" (pad3 0) "a"
  have hmain : putA (aState t ++ [("submission:" ++ "a" ++ ":" ++ pad3 (t + 1),
      KVVal.sub ⟨aSub, pad3 (t + 1)⟩)]) ("index:" ++ "a")
      (KVVal.idx (((List.range (t + 2)).reverse).map pad3)) = aState (t + 1) := by
    conv_lhs => rw [aState]
    rw [List.cons_append, List.cons_append]
    rw [putA_cons_ne _ _ _ _ _ h0, putA_cons_eq]
    conv_rhs => rw [aState]
    refine congrArg₂ _ rfl (congrArg₂ _ rfl ?_)
    rw [show List.range (t + 1) = List.range t ++ [t] from List.range_succ t,
      List.map_append]
    rfl
  rw [hmain]

theorem aState_base :
    storeSubmission aSub (some []) none (pad3 0) =
      .ok (pad3 0, some (aState 0), none) := rfl

theorem storeSeq_aState : ∀ (j t : Nat), t + 1 + j ≤ 1000 →
    storeSeq ((List.range' (t + 1) j).map (fun n => (aSub, pad3 n))) (aState t) =
      aState (t + j) := by
  intro j
  induction j with
  | zero =>
      intro t ht
      simp [storeSeq]
  | succ j ih =>
      intro t ht
      rw [List.range'_succ (t + 1) j 1]
      simp only [List.map_cons]
      have hstep := aState_step (show t + 1 < 1000 by omega)
      rw [storeSeq_cons _ _ _ _ _ hstep]
      rw [show t + (j + 1) = (t + 1) + j from by omega]
      exact ih (t + 1) (by omega)

theorem storeSeq_bigOps : storeSeq bigOps [] = aState 999 := by
  rw [bigOps, List.range_eq_range']
  rw [show List.range' 0 1000 = 0 :: List.range' 1 999 from List.range'_succ 0 999 1]
  simp only [List.map_cons]
  rw [storeSeq_cons _ _ _ _ _ aState_base]
  have := storeSeq_aState 999 0 (by omega)
  simpa using this

theorem index_a_ne_index_b : ("index:" ++ "a" : String) ≠ "index:" ++ "b" := by
  intro he
  have hd := congrArg String.data he
  rw [String.data_append, String.data_append] at hd
  have hab : ("a" : String) = "b" := String.ext (List.append_cancel_left hd)
  exact absurd hab (by decide)

theorem overflow_store_step :
    storeSubmission bSub (some (aState 999)) none "x" =
      .ok ("x", some overflowStore, none) := by
  rw [storeSubmission_kv]
  have hform : bSub.formId = "b" := rfl
  rw [hform]
  have hidxB : formIndex (aState 999) "b" = [] := by
    rw [formIndex, lookupA_eq_none_of_forall]
    intro p hp
    rcases mem_aState hp with h | ⟨n, hn, h⟩
    · rw [h]
      exact index_a_ne_index_b
    · rw [h]
      exact submission_full_key_ne_index_key "a" (pad3 n) "b"
  rw [hidxB]
  rw [show (("x" : String) :: ([] : List String)).take 1000 = ["x"] from rfl]
  have hfreshB : ∀ p ∈ aState 999, p.1 ≠ "submission:" ++ "b" ++ ":" ++ "x" := by
    intro p hp
    rcases mem_aState hp with h | ⟨n, hn, h⟩
    · rw [h]
      exact Ne.symm (submission_full_key_ne_index_key "b" "x" "a")
    · rw [h]
      exact aKey_ne_bKey n
  rw [putA_eq_append _ hfreshB]
  have hfreshI : ∀ p ∈ aState 999 ++
      [(("submission:" ++ "b" ++ ":" ++ "x" : String),
        KVVal.sub ⟨bSub, "x"⟩)], p.1 ≠ "index:" ++ "b" := by
    intro p hp
    rcases List.mem_append.mp hp with h | h
    · rcases mem_aState h with h' | ⟨n, hn, h'⟩
      · rw [h']
        exact index_a_ne_index_b
      · rw [h']
        exact submission_full_key_ne_index_key "a" (pad3 n) "b"
    · rw [List.mem_singleton.mp h]
      exact submission_full_key_ne_index_key "b" "x" "b"
  rw [putA_eq_append _ hfreshI]
  simp [overflowStore, bKey]

theorem jsStartsWith_aKey (n : Nat) : jsStartsWith (aKey n) "submission:" = true := by
  rw [show aKey n = "submission:" ++ ("a" ++ (":" ++ pad3 n)) from by
    rw [aKey, String.append_assoc, String.append_assoc]]
  exact jsStartsWith_submission_self _

theorem jsStartsWith_bKey : jsStartsWith bKey "submission:" = true := by
  rw [show bKey = "submission:" ++ ("b" ++ (":" ++ "x")) from by
    rw [bKey, String.append_assoc, String.append_assoc]]
  exact jsStartsWith_submission_self _

theorem overflow_filtered_keys :
    (overflowStore.map Prod.fst).filter (fun k => jsStartsWith k "submission:") =
      (List.range 1000).map aKey ++ [bKey] := by
  rw [overflowStore, aState]
  have htail : ((List.range 999).map
      (fun n => ((aKey (n + 1), KVVal.sub ⟨aSub, pad3 (n + 1)⟩) : String × KVVal))).map
        Prod.fst = (List.range 999).map (fun n => aKey (n + 1)) := by
    rw [List.map_map]
    rfl
  simp only [List.map_append, List.map_cons, List.cons_append, List.filter_append,
    List.filter_cons, htail]
  rw [jsStartsWith_aKey 0, jsStartsWith_index_not_submission "a",
    jsStartsWith_index_not_submission "b", jsStartsWith_bKey]
  have hself : ((List.range 999).map (fun n => aKey (n + 1))).filter
      (fun k => jsStartsWith k "submission:") =
      (List.range 999).map (fun n => aKey (n + 1)) := by
    refine List.filter_eq_self.mpr ?_
    intro k hk
    obtain ⟨n, hn, rfl⟩ := List.mem_map.mp hk
    exact jsStartsWith_aKey (n + 1)
  simp only [hself]
  rw [show List.range 1000 = 0 :: (List.range 999).map Nat.succ from
    List.range_succ_eq_map 999]
  simp [List.map_map, Function.comp]

theorem insortStr_of_lt {k : String} : ∀ {l : List String},
    (∀ x ∈ l, lexLt k.data x.data = true) → insortStr k l = k :: l := by
  intro l h
  cases l with
  | nil => rfl
  | cons x xs =>
      rw [insortStr, if_pos]
      exact h x (by simp)

theorem sortStr_eq_self : ∀ {l : List String},
    l.Pairwise (fun a b => lexLt a.data b.data = true) → sortStr l = l := by
  intro l h
  induction l with
  | nil => rfl
  | cons x xs ih =>
      rw [sortStr, ih h.of_cons]
      exact insortStr_of_lt (fun y hy => List.rel_of_pairwise_cons h hy)

theorem overflow_keys_pairwise :
    ((List.range 1000).map aKey ++ [bKey]).Pairwise
      (fun a b => lexLt a.data b.data = true) := by
  rw [List.pairwise_append]
  refine ⟨?_, by simp, ?_⟩
  · rw [List.pairwise_map]
    refine (List.pairwise_lt_range 1000).imp_of_mem ?_
    intro i j hi hj hij
    exact aKey_lt_aKey hij (List.mem_range.mp hj)
  · intro a ha b hb
    simp only [List.mem_singleton] at hb
    subst hb
    obtain ⟨n, hn, rfl⟩ := List.mem_map.mp ha
    exact aKey_lt_bKey n

theorem overflow_page :
    kvListKeys overflowStore "submission:" = (List.range 1000).map aKey := by
  rw [kvListKeys, overflow_filtered_keys, sortStr_eq_self overflow_keys_pairwise]
  have hlen : ((List.range 1000).map aKey).length = 1000 := by simp
  rw [List.take_left' hlen]

theorem scanFor_none (store : SubKV) (q : String) :
    ∀ ks : List String, (∀ k ∈ ks, jsEndsWith k (":" ++ q) = false) →
    scanFor store q ks = none := by
  intro ks
  induction ks with
  | nil => intro _; rfl
  | cons k rest ih =>
      intro h
      rw [scanFor, if_neg (by simp [h k (by simp)])]
      exact ih (fun k' hk' => h k' (by simp [hk']))

theorem aKey_not_endsWith_x {n : Nat} (hn : n < 1000) :
    jsEndsWith (aKey n) (":" ++ "x") = false := by
  rw [Bool.eq_false_iff]
  intro h
  simp only [jsEndsWith, List.isSuffixOf_iff_suffix] at h
  rw [aKey_data] at h
  rw [show ("submission:a:" : String).data =
    ['s','u','b','m','i','s','s','i','o','n',':','a'] ++ [':'] from rfl] at h
  rw [List.append_assoc] at h
  have hx := suffix_colon_eq ['s','u','b','m','i','s','s','i','o','n',':','a']
    "x".data (pad3 n).data (by decide) (pad3_no_colon hn) (by simpa using h)
  have hlen := congrArg List.length hx
  simp [show (pad3 n).data.length = 3 from rfl] at hlen

theorem aState_fresh_x : ∀ p ∈ aState 999, jsEndsWith p.1 (":" ++ "x") = false := by
  intro p hp
  rcases mem_aState hp with h | ⟨n, hn, h⟩
  · rw [h]
    decide
  · rw [h]
    exact aKey_not_endsWith_x (by omega)

theorem overflow_get_none : getSubmission (some overflowStore) none "x" = none := by
  show scanFor overflowStore "x" (kvListKeys overflowStore "submission:") = none
  rw [overflow_page]
  refine scanFor_none _ _ _ ?_
  intro k hk
  obtain ⟨n, hn, rfl⟩ := List.mem_map.mp hk
  exact aKey_not_endsWith_x (List.mem_range.mp hn)

/-- C2 counterexample: with 1000 submission records already stored — exactly
the state that a thousand sequential stores for form `a` leave behind —
storing a fresh 1001st submission (form `b`, id `x`) and immediately calling
`getById` with the returned id yields `null`, not the stored submission: the
new record key sorts after all 1000 form-`a` record keys, beyond the single
1000-key page the unpaginated key scan reads. -/
theorem roundtrip_pagination_cex :
    storeSeq bigOps [] = aState 999 ∧
    (∀ p ∈ aState 999, jsEndsWith p.1 (":" ++ "x") = false) ∧
    storeSubmission bSub (some (aState 999)) none "x" =
      .ok ("x", some overflowStore, none) ∧
    getSubmission (some overflowStore) none "x" = none ∧
    getSubmission (some overflowStore) none "x" ≠ some ⟨bSub, "x"⟩ :=
  ⟨storeSeq_bigOps, aState_fresh_x, overflow_store_step, overflow_get_none, by
    rw [overflow_get_none]
    simp⟩

end FormFlare
